import Mathlib

/-!
Verification of the simplex tableau engine of a two-phase linear-programming
solver.  The numeric type of the source is embedded as `ℚ`; the epsilon
tolerances of the source (`1e-10`, `1e-12`, `1e-9`) become exact rational
constants.  Tables are lists of rows of rationals; JavaScript array indexing
`a[i]` is embedded as `List.getD i` with the out-of-range default `0`
(respectively `[]`, `""`), and all claims carry the well-formedness
hypotheses under which the two coincide.
-/

namespace Simplex

/-- Tolerance `1e-10` used for optimality tests, ratio admission and derived-row
noise suppression. -/
def eps10 : ℚ := 1 / 10 ^ 10

/-- Tolerance `1e-12` used by the pivot: degenerate-pivot detection and
elimination noise suppression. -/
def eps12 : ℚ := 1 / 10 ^ 12

/-- Tolerance `1e-9` of the identity-column testable property. -/
def eps9 : ℚ := 1 / 10 ^ 9

/-- Snap a value below `eps` in magnitude to exactly `0`
(`if (Math.abs(v) < eps) v = 0`). -/
def snapZero (eps x : ℚ) : ℚ := if |x| < eps then 0 else x

/-- `String.prototype.startsWith` on the underlying character list (the
built-in `String.startsWith` is compiled code the kernel cannot evaluate;
prefix-of-the-character-sequence is its specification). -/
def strStarts (s p : String) : Bool := p.data.isPrefixOf s.data

/-- `Math.max(...xs)`: `none` encodes the `-Infinity` of an empty spread. -/
def maxQ : List ℚ → Option ℚ
  | [] => none
  | x :: xs =>
    some (match maxQ xs with
          | none => x
          | some m => max x m)

/-- `Math.min(...xs)`: `none` encodes the `Infinity` of an empty spread. -/
def minQ : List ℚ → Option ℚ
  | [] => none
  | x :: xs =>
    some (match minQ xs with
          | none => x
          | some m => min x m)

/-- `Array.prototype.indexOf`-style search: index of the first element
satisfying `p`. -/
def firstIdx (p : α → Bool) : List α → Option ℕ
  | [] => none
  | x :: xs => if p x then some 0 else (firstIdx p xs).map (· + 1)

/-- The `CB` determination shared by every copy of `computeZjAndCjMinusZj`:
look the basic variable up in the variable list and read its `Cj` entry,
falling back to `0` when the variable does not occur or the `Cj` row is too
short (`idx === -1`, `cjRow[idx] ?? 0`). -/
def cbValue (allVars : List String) (cjRow : List ℚ) (b : String) : ℚ :=
  match firstIdx (fun v => v == b) allVars with
  | none => 0
  | some idx => cjRow.getD idx 0

/-- Map over a list with access to the position of each element, starting the
count at `n`.  Used to embed the in-place `for (let j = 0; ...)` row updates
of `performPivot`. -/
def mapIdxFrom (f : ℕ → α → β) : ℕ → List α → List β
  | _, [] => []
  | n, x :: xs => f n x :: mapIdxFrom f (n + 1) xs

/-- The raw `Zj` row: `zjRow[j] = Σ_{i < n} cb[i] * table[i][j]`, written with
the `sum += ...` accumulation of the source. -/
def zjRowOf (table : List (List ℚ)) (cb : List ℚ) (n cols : ℕ) : List ℚ :=
  (List.range cols).map fun j =>
    (List.range n).foldl (fun s i => s + cb.getD i 0 * (table.getD i []).getD j 0) 0

/-- The raw `Cj - Zj` row: `cjRow[j] - zjRow[j]` for positions covered by the
`Cj` vector, `0` beyond it (in particular at the RHS column). -/
def cjZjRowOf (cjRow zjR : List ℚ) (cols : ℕ) : List ℚ :=
  (List.range cols).map fun j =>
    if j < cjRow.length then cjRow.getD j 0 - zjR.getD j 0 else 0

/-- One step of the leaving-variable ratio test loop.  State: current
`(minRatio, leavingIdx)` with `none` for `Infinity` / `-1`. -/
def ratioStep (t : List (List ℚ)) (col : ℕ) (rhsIdxOf : List ℚ → ℕ)
    (st : Option ℚ × Option ℕ) (i : ℕ) : Option ℚ × Option ℕ :=
  let row := t.getD i []
  let colVal := row.getD col 0
  let rhsVal := row.getD (rhsIdxOf row) 0
  if eps10 < colVal then
    let rq := rhsVal / colVal
    match st.1 with
    | none => if -eps10 ≤ rq then (some rq, some i) else st
    | some m => if -eps10 ≤ rq ∧ rq < m - eps10 then (some rq, some i) else st
  else st

/-- The leaving-variable ratio test over constraint rows `0 .. n-1` of `t` in
column `col`; `rhsIdxOf` gives the index of the RHS entry of a row (the copies
of the source use either `row.length - 1` or the fixed `cols - 1`). -/
def ratioScan (t : List (List ℚ)) (n col : ℕ) (rhsIdxOf : List ℚ → ℕ) :
    Option ℚ × Option ℕ :=
  (List.range n).foldl (ratioStep t col rhsIdxOf) (none, none)

/-- The entering-column coefficient of constraint row `i`
(specification vocabulary for the ratio test). -/
def colCoeff (t : List (List ℚ)) (col i : ℕ) : ℚ := (t.getD i []).getD col 0

/-- The ratio `RHS / coefficient` of constraint row `i`
(specification vocabulary for the ratio test). -/
def rowRatQ (t : List (List ℚ)) (col : ℕ) (rhsIdxOf : List ℚ → ℕ) (i : ℕ) : ℚ :=
  (t.getD i []).getD (rhsIdxOf (t.getD i [])) 0 / colCoeff t col i

/-- A constraint row is considered by the ratio test when its entering-column
coefficient exceeds `1e-10` and its ratio is at least `-1e-10`. -/
abbrev admissible (t : List (List ℚ)) (col : ℕ) (rhsIdxOf : List ℚ → ℕ)
    (i : ℕ) : Prop :=
  eps10 < colCoeff t col i ∧ -eps10 ≤ rowRatQ t col rhsIdxOf i

/-- Result record of `computeZjAndCjMinusZj`. -/
structure ComputeResult where
  table : List (List ℚ)
  enteringVar : Option String
  leavingVar : Option String

/-- The snapped `Zj` row computed by every copy of `computeZjAndCjMinusZj`. -/
def derivedZj (table : List (List ℚ)) (basicVars : List String)
    (cjRow : List ℚ) (allVars : List String) : List ℚ :=
  (zjRowOf table (basicVars.map (cbValue allVars cjRow)) (table.length - 2)
      (table.getD 0 []).length).map (snapZero eps10)

/-- The snapped `Cj - Zj` row computed by every copy of
`computeZjAndCjMinusZj` (note: from the raw, un-snapped `Zj` row). -/
def derivedCz (table : List (List ℚ)) (basicVars : List String)
    (cjRow : List ℚ) (allVars : List String) : List ℚ :=
  (cjZjRowOf cjRow
      (zjRowOf table (basicVars.map (cbValue allVars cjRow)) (table.length - 2)
        (table.getD 0 []).length)
      (table.getD 0 []).length).map (snapZero eps10)

end Simplex

namespace Solution

open Simplex

/-- `computeZjAndCjMinusZj` of the single-phase solution screen (maximize
rule): fill the `Zj` and `Cj - Zj` rows (snapping entries below `1e-10` to
`0`), pick the entering column as the first variable column holding the
maximal `Cj - Zj` value unless that maximum is `≤ 1e-10` (optimal), and run
the ratio test for the leaving row. -/
def computeZjAndCjMinusZj (table : List (List ℚ)) (basicVars : List String)
    (cjRow : List ℚ) (allVars : List String) : ComputeResult :=
  if table.length < 2 then ⟨table, none, none⟩ else
  let n := table.length - 2
  let cz := derivedCz table basicVars cjRow allVars
  let newTable := table.take n ++ [derivedZj table basicVars cjRow allVars, cz]
  let czVars := cz.take allVars.length
  match maxQ czVars with
  | none => ⟨newTable, none, none⟩
  | some maxVal =>
    if maxVal ≤ eps10 then ⟨newTable, none, none⟩
    else
      let enteringIndex := (firstIdx (fun v => v == maxVal) czVars).getD 0
      let scan := ratioScan newTable n enteringIndex (fun row => row.length - 1)
      ⟨newTable, some (allVars.getD enteringIndex ""),
        scan.2.map fun i => basicVars.getD i ""⟩

/-- `performPivot`, shared verbatim by the solution screen and both phase
screens: reject a pivot element below `1e-12` in magnitude, normalize the
pivot row, eliminate the pivot column from every other constraint row, and
snap values below `1e-12` to `0`. -/
def performPivot (currentTable : List (List ℚ)) (pivotRowIdx pivotColIdx : ℕ) :
    Except String (List (List ℚ)) :=
  let n := currentTable.length - 2
  let cols := (currentTable.getD 0 []).length
  let pivotVal := (currentTable.getD pivotRowIdx []).getD pivotColIdx 0
  if |pivotVal| < eps12 then .error "Pivot value is too close to zero."
  else
    let pr := mapIdxFrom
      (fun j v => if j < cols then snapZero eps12 (v / pivotVal) else v) 0
      (currentTable.getD pivotRowIdx [])
    .ok <| mapIdxFrom
      (fun i row =>
        if i = pivotRowIdx then pr
        else if i < n then
          let factor := row.getD pivotColIdx 0
          if |factor| < eps12 then row
          else mapIdxFrom
            (fun j v => if j < cols then snapZero eps12 (v - factor * pr.getD j 0) else v)
            0 row
        else row) 0 currentTable

/-- The normalized pivot row built by `performPivot` (named form of the `pr`
binding, for reasoning). -/
def pivotRowNorm (t : List (List ℚ)) (r c : ℕ) : List ℚ :=
  mapIdxFrom
    (fun j v => if j < (t.getD 0 []).length then
      snapZero eps12 (v / (t.getD r []).getD c 0) else v) 0 (t.getD r [])

/-- The elimination of the pivot column from one non-pivot constraint row of
`performPivot` (named form, for reasoning). -/
def pivotElimRow (t : List (List ℚ)) (r c : ℕ) (row : List ℚ) : List ℚ :=
  let factor := row.getD c 0
  if |factor| < eps12 then row
  else mapIdxFrom
    (fun j v => if j < (t.getD 0 []).length then
      snapZero eps12 (v - factor * (pivotRowNorm t r c).getD j 0) else v) 0 row

end Solution

namespace Simplex

/-- The session state held by a solver screen (the UI-only fields are
omitted). -/
structure SimplexState where
  table : List (List ℚ)
  vars : List String
  cj : List ℚ
  basics : List String
  iteration : ℕ
  message : Option String
  enteringVar : Option String
  leavingVar : Option String

end Simplex

namespace Solution

open Simplex

def optimalMsg : String := "Optimal solution reached."

def unboundedMsg : String := "Problem is unbounded (no valid leaving variable)."

def stoppedMsg : String := "Stopped: reached maximum automatic iterations limit."

def pivotErrHead : String := "Error during pivot: "

def autoPivotErrHead : String := "Error during automatic pivot: "

/-- The `try { performPivot ... }` block of `handleNextIteration`: apply the
pivot at the chosen position, update basis and derived rows and re-test
optimality; on a pivot error, keep the pre-pivot state and surface the error
message. -/
def applyPivotStep (s : SimplexState) (enteringIndex leavingRowIdx : ℕ) :
    SimplexState :=
  match performPivot s.table leavingRowIdx enteringIndex with
  | .error e => { s with message := some (pivotErrHead ++ e) }
  | .ok newTable =>
    let newBasics := s.basics.set leavingRowIdx (s.vars.getD enteringIndex "")
    let computed := computeZjAndCjMinusZj newTable newBasics s.cj s.vars
    let s1 := { s with
      table := computed.table
      basics := newBasics
      enteringVar := some (computed.enteringVar.getD (s.vars.getD enteringIndex ""))
      leavingVar := some (computed.leavingVar.getD (s.basics.getD leavingRowIdx ""))
      iteration := s.iteration + 1 }
    let czNow := (computed.table.getD (computed.table.length - 1) []).take s.vars.length
    match maxQ czNow with
    | none =>
      { s1 with message := some optimalMsg, enteringVar := none, leavingVar := none }
    | some maxNow =>
      if maxNow ≤ eps10 then
        { s1 with message := some optimalMsg, enteringVar := none, leavingVar := none }
      else { s1 with message := none }

/-- `handleNextIteration` of the single-phase solution screen: one manual
simplex step. -/
def handleNextIteration (s : SimplexState) : SimplexState :=
  let s0 := { s with message := none }
  if s0.table.length < 2 then s0 else
  let n := s0.table.length - 2
  let cols := (s0.table.getD 0 []).length
  let czRow := s0.table.getD (s0.table.length - 1) []
  let czVars := czRow.take s0.vars.length
  match maxQ czVars with
  | none =>
    { s0 with enteringVar := none, leavingVar := none, message := some optimalMsg }
  | some maxVal =>
    if maxVal ≤ eps10 then
      { s0 with enteringVar := none, leavingVar := none, message := some optimalMsg }
    else
      let enteringIndex := (firstIdx (fun v => v == maxVal) czVars).getD 0
      let scan := ratioScan s0.table n enteringIndex (fun _ => cols - 1)
      match scan.2 with
      | none =>
        { s0 with enteringVar := some (s0.vars.getD enteringIndex ""),
                  leavingVar := none, message := some unboundedMsg }
      | some leavingRowIdx => applyPivotStep s0 enteringIndex leavingRowIdx

/-- Result of a `handleSolveToOptimal` run, with a count of the pivots it
performed. -/
structure SolveOutcome where
  table : List (List ℚ)
  basics : List String
  iteration : ℕ
  message : String
  enteringVar : Option String
  leavingVar : Option String
  pivots : ℕ

/-- The recursive `solve(currentTable, currentBasics, currentIteration)`
worker of `handleSolveToOptimal`: stop past 100 iterations, at optimality or
at unboundedness, otherwise pivot and recurse on the recomputed table. -/
def solveRec (vars : List String) (cj : List ℚ) (table : List (List ℚ))
    (basics : List String) (iter : ℕ) : SolveOutcome :=
  if 100 < iter then ⟨table, basics, iter, stoppedMsg, none, none, 0⟩
  else
    let lastRow := table.getD (table.length - 1) []
    let czVars := lastRow.take vars.length
    match maxQ czVars with
    | none => ⟨table, basics, iter, optimalMsg, none, none, 0⟩
    | some maxVal =>
      if maxVal ≤ eps10 then ⟨table, basics, iter, optimalMsg, none, none, 0⟩
      else
        let enteringIndex := (firstIdx (fun v => v == maxVal) czVars).getD 0
        let n := table.length - 2
        let cols := (table.getD 0 []).length
        let scan := ratioScan table n enteringIndex (fun _ => cols - 1)
        match scan.2 with
        | none =>
          ⟨table, basics, iter, unboundedMsg, some (vars.getD enteringIndex ""), none, 0⟩
        | some leavingRowIdx =>
          match performPivot table leavingRowIdx enteringIndex with
          | .error e =>
            ⟨table, basics, iter, autoPivotErrHead ++ e, none, none, 0⟩
          | .ok newTable =>
            let newBasics := basics.set leavingRowIdx (vars.getD enteringIndex "")
            let computed := computeZjAndCjMinusZj newTable newBasics cj vars
            let rest := solveRec vars cj computed.table newBasics (iter + 1)
            { rest with pivots := rest.pivots + 1 }
termination_by 101 - iter
decreasing_by omega

/-- `handleSolveToOptimal`: run `solve` from the current session state. -/
def handleSolveToOptimal (s : SimplexState) : SolveOutcome :=
  solveRec s.vars s.cj s.table s.basics s.iteration

end Solution

namespace Phase1

open Simplex

def feasibleMsg : String :=
  "Phase 1 complete. Feasible solution found. Ready for Phase 2."

def infeasibleMsg : String := "Phase 1 complete. Original problem is infeasible."

def unboundedMsg : String := "Phase 1 problem is unbounded."

/-- Session state of the Phase 1 screen: the simplex state plus the
`phase1Complete` flag that gates the "Proceed to Phase II" action. -/
structure Phase1State where
  table : List (List ℚ)
  vars : List String
  cj : List ℚ
  basics : List String
  iteration : ℕ
  message : Option String
  enteringVar : Option String
  leavingVar : Option String
  complete : Bool

/-- `computeZjAndCjMinusZj` of the Phase 1 screen: identical derived-row
computation, but the entering rule is the minimize one — pick the first
variable column holding the minimal `Cj - Zj` value unless that minimum is
`≥ -1e-10` (Phase 1 optimal). -/
def computeZjAndCjMinusZj (table : List (List ℚ)) (basicVars : List String)
    (cjRow : List ℚ) (allVars : List String) : ComputeResult :=
  if table.length < 2 then ⟨table, none, none⟩ else
  let n := table.length - 2
  let cz := derivedCz table basicVars cjRow allVars
  let newTable := table.take n ++ [derivedZj table basicVars cjRow allVars, cz]
  let czVars := cz.take allVars.length
  match minQ czVars with
  | none => ⟨newTable, none, none⟩
  | some minVal =>
    if -eps10 ≤ minVal then ⟨newTable, none, none⟩
    else
      let enteringIndex := (firstIdx (fun v => v == minVal) czVars).getD 0
      let scan := ratioScan newTable n enteringIndex (fun row => row.length - 1)
      ⟨newTable, some (allVars.getD enteringIndex ""),
        scan.2.map fun i => basicVars.getD i ""⟩

/-- `performPivot` of the Phase 1 screen is textually identical to the
solution screen's. -/
def performPivot : List (List ℚ) → ℕ → ℕ → Except String (List (List ℚ)) :=
  Solution.performPivot

/-- The Phase 1 optimality wrap-up: clear entering/leaving, read the Phase 1
objective value `W` from the `Zj` entry under the RHS column, and report
feasible (`phase1Complete := true`) when `|W| < 1e-10`, infeasible
otherwise. -/
def phase1Terminal (s : Phase1State) : Phase1State :=
  let cols := (s.table.getD 0 []).length
  let w := (s.table.getD (s.table.length - 2) []).getD (cols - 1) 0
  if |w| < eps10 then
    { s with enteringVar := none, leavingVar := none,
             message := some feasibleMsg, complete := true }
  else
    { s with enteringVar := none, leavingVar := none,
             message := some infeasibleMsg }

/-- The `try { performPivot ... }` block of Phase 1's `handleNextIteration`. -/
def applyPivotStep (s : Phase1State) (enteringIndex leavingRowIdx : ℕ) :
    Phase1State :=
  match performPivot s.table leavingRowIdx enteringIndex with
  | .error e => { s with message := some (Solution.pivotErrHead ++ e) }
  | .ok newTable =>
    let newBasics := s.basics.set leavingRowIdx (s.vars.getD enteringIndex "")
    let computed := computeZjAndCjMinusZj newTable newBasics s.cj s.vars
    let s1 := { s with
      table := computed.table
      basics := newBasics
      enteringVar := some (computed.enteringVar.getD (s.vars.getD enteringIndex ""))
      leavingVar := some (computed.leavingVar.getD (s.basics.getD leavingRowIdx ""))
      iteration := s.iteration + 1 }
    let czNow := (computed.table.getD (computed.table.length - 1) []).take s.vars.length
    match minQ czNow with
    | none => phase1Terminal s1
    | some minNow =>
      if -eps10 ≤ minNow then phase1Terminal s1 else { s1 with message := none }

/-- `handleNextIteration` of the Phase 1 screen: one manual Phase 1 step,
with the feasibility/infeasibility decision on optimality. -/
def handleNextIteration (s : Phase1State) : Phase1State :=
  let s0 := { s with message := none }
  if s0.table.length < 2 then s0 else
  let n := s0.table.length - 2
  let cols := (s0.table.getD 0 []).length
  let czRow := s0.table.getD (s0.table.length - 1) []
  let czVars := czRow.take s0.vars.length
  match minQ czVars with
  | none => phase1Terminal s0
  | some minVal =>
    if -eps10 ≤ minVal then phase1Terminal s0
    else
      let enteringIndex := (firstIdx (fun v => v == minVal) czVars).getD 0
      let scan := ratioScan s0.table n enteringIndex (fun _ => cols - 1)
      match scan.2 with
      | none =>
        { s0 with enteringVar := some (s0.vars.getD enteringIndex ""),
                  leavingVar := none, message := some unboundedMsg }
      | some leavingRowIdx => applyPivotStep s0 enteringIndex leavingRowIdx

end Phase1

namespace Phase2

open Simplex

/-- `computeZjAndCjMinusZj` of the Phase 2 screen is textually identical to
the solution screen's (maximize rule). -/
def computeZjAndCjMinusZj :
    List (List ℚ) → List String → List ℚ → List String → ComputeResult :=
  Solution.computeZjAndCjMinusZj

/-- The Phase 2 objective construction loop of `createPhase2Table`: walk the
filtered (artificial-free) variable list keeping an `originalIndex` cursor
into the original objective; an `x`-variable takes the next original
coefficient (negated if minimizing), everything else takes `0`. -/
def buildPhase2Objective (optType : String) (orig : List ℚ) :
    ℕ → List String → List ℚ
  | _, [] => []
  | oi, v :: vs =>
    if strStarts v "x" then
      if oi < orig.length then
        (if optType == "Minimize" then -(orig.getD oi 0) else orig.getD oi 0) ::
          buildPhase2Objective optType orig (oi + 1) vs
      else 0 :: buildPhase2Objective optType orig oi vs
    else 0 :: buildPhase2Objective optType orig oi vs

/-- The state pieces produced by `createPhase2Table` before the initial
derived-row computation. -/
structure Phase2Init where
  vars : List String
  cj : List ℚ
  table : List (List ℚ)
  basics : List String

/-- `createPhase2Table`: drop the artificial-variable columns from the
Phase 1 table, rebuild the objective row from the original objective, replace
artificial basic variables by the first available slack variable (`"s1"` as
fallback), and append placeholder `Zj` / `Cj - Zj` rows. -/
def createPhase2Table (originalObjective : List ℚ)
    (phase1Table : List (List ℚ)) (phase1Variables : List String)
    (phase1BasicVariables : List String) (optType : String) : Phase2Init :=
  let artificialIndices := (List.range phase1Variables.length).filter
    fun j => strStarts (phase1Variables.getD j "") "a"
  let filteredVariables := phase1Variables.filter fun v => !strStarts v "a"
  let phase2Objective := buildPhase2Objective optType originalObjective 0 filteredVariables
  let constraintRows := phase1Table.take (phase1Table.length - 2)
  let phase2Rows := constraintRows.map fun row =>
    ((List.range phase1Variables.length).filterMap fun j =>
      if artificialIndices.contains j then none else some (row.getD j 0)) ++
    (if 0 < row.length then [row.getD (row.length - 1) 0] else [])
  let newBasicVariables := phase1BasicVariables.map fun b =>
    if strStarts b "a" then
      (filteredVariables.find? fun v => strStarts v "s").getD "s1"
    else b
  let cols := filteredVariables.length + 1
  ⟨filteredVariables, phase2Objective,
    phase2Rows ++ [List.replicate cols 0, List.replicate cols 0],
    newBasicVariables⟩

end Phase2

namespace Simplex

theorem mapIdxFrom_length (f : ℕ → α → β) (n : ℕ) (l : List α) :
    (mapIdxFrom f n l).length = l.length := by
  induction l generalizing n with
  | nil => rfl
  | cons x xs ih => simp [mapIdxFrom, ih]

theorem mapIdxFrom_getD (f : ℕ → α → β) (n k : ℕ) (l : List α) (d : α) (d' : β)
    (h : k < l.length) :
    (mapIdxFrom f n l).getD k d' = f (n + k) (l.getD k d) := by
  induction l generalizing n k with
  | nil => simp at h
  | cons x xs ih =>
    cases k with
    | zero => simp [mapIdxFrom]
    | succ k' =>
      have := ih (n + 1) k' (by simpa using h)
      simpa [mapIdxFrom, Nat.add_assoc, Nat.add_comm 1 k'] using this

theorem maxQ_eq_none {l : List ℚ} : maxQ l = none ↔ l = [] := by
  cases l <;> simp [maxQ]

theorem maxQ_isSome {l : List ℚ} (h : l ≠ []) : ∃ m, maxQ l = some m := by
  cases l with
  | nil => exact absurd rfl h
  | cons x xs => exact ⟨_, rfl⟩

theorem maxQ_spec {l : List ℚ} {m : ℚ} (h : maxQ l = some m) :
    m ∈ l ∧ ∀ v ∈ l, v ≤ m := by
  induction l generalizing m with
  | nil => simp [maxQ] at h
  | cons x xs ih =>
    simp only [maxQ] at h
    cases hxs : maxQ xs with
    | none =>
      rw [hxs] at h
      obtain rfl : x = m := by simpa using h
      have : xs = [] := maxQ_eq_none.mp hxs
      subst this
      simp
    | some m' =>
      rw [hxs] at h
      obtain rfl : max x m' = m := by simpa using h
      obtain ⟨hmem, hub⟩ := ih hxs
      constructor
      · rcases max_choice x m' with hc | hc <;> rw [hc]
        · simp
        · exact List.mem_cons_of_mem _ hmem
      · intro v hv
        rcases List.mem_cons.mp hv with rfl | hv
        · exact le_max_left _ _
        · exact le_trans (hub v hv) (le_max_right _ _)

theorem maxQ_eq_of_spec {l : List ℚ} {m : ℚ} (hmem : m ∈ l)
    (hub : ∀ v ∈ l, v ≤ m) : maxQ l = some m := by
  obtain ⟨m', hm'⟩ := maxQ_isSome (l := l) (by rintro rfl; simp at hmem)
  obtain ⟨hmem', hub'⟩ := maxQ_spec hm'
  rw [hm']
  exact congrArg some (le_antisymm (hub m' hmem') (hub' m hmem))

theorem minQ_eq_none {l : List ℚ} : minQ l = none ↔ l = [] := by
  cases l <;> simp [minQ]

theorem minQ_isSome {l : List ℚ} (h : l ≠ []) : ∃ m, minQ l = some m := by
  cases l with
  | nil => exact absurd rfl h
  | cons x xs => exact ⟨_, rfl⟩

theorem minQ_spec {l : List ℚ} {m : ℚ} (h : minQ l = some m) :
    m ∈ l ∧ ∀ v ∈ l, m ≤ v := by
  induction l generalizing m with
  | nil => simp [minQ] at h
  | cons x xs ih =>
    simp only [minQ] at h
    cases hxs : minQ xs with
    | none =>
      rw [hxs] at h
      obtain rfl : x = m := by simpa using h
      have : xs = [] := minQ_eq_none.mp hxs
      subst this
      simp
    | some m' =>
      rw [hxs] at h
      obtain rfl : min x m' = m := by simpa using h
      obtain ⟨hmem, hlb⟩ := ih hxs
      constructor
      · rcases min_choice x m' with hc | hc <;> rw [hc]
        · simp
        · exact List.mem_cons_of_mem _ hmem
      · intro v hv
        rcases List.mem_cons.mp hv with rfl | hv
        · exact min_le_left _ _
        · exact le_trans (min_le_right _ _) (hlb v hv)

theorem minQ_eq_of_spec {l : List ℚ} {m : ℚ} (hmem : m ∈ l)
    (hlb : ∀ v ∈ l, m ≤ v) : minQ l = some m := by
  obtain ⟨m', hm'⟩ := minQ_isSome (l := l) (by rintro rfl; simp at hmem)
  obtain ⟨hmem', hlb'⟩ := minQ_spec hm'
  rw [hm']
  exact congrArg some (le_antisymm (hlb' m hmem) (hlb m' hmem'))

theorem firstIdx_eq_some {p : α → Bool} {l : List α} {j : ℕ} (d : α)
    (h : firstIdx p l = some j) :
    j < l.length ∧ p (l.getD j d) = true ∧ ∀ k < j, ¬ p (l.getD k d) = true := by
  induction l generalizing j with
  | nil => simp [firstIdx] at h
  | cons x xs ih =>
    by_cases hx : p x = true
    · simp only [firstIdx, hx, if_true] at h
      obtain rfl : (0 : ℕ) = j := by simpa using h
      simpa using hx
    · simp only [firstIdx, hx, if_false, Bool.false_eq_true] at h
      cases hxs : firstIdx p xs with
      | none => rw [hxs] at h; simp at h
      | some j' =>
        rw [hxs] at h
        obtain rfl : j' + 1 = j := by simpa using h
        obtain ⟨h1, h2, h3⟩ := ih hxs
        refine ⟨by simpa using h1, by simpa using h2, ?_⟩
        intro k hk
        cases k with
        | zero => simpa using hx
        | succ k' => simpa using h3 k' (by omega)

theorem firstIdx_of_spec {p : α → Bool} {l : List α} {j : ℕ} (d : α)
    (hj : j < l.length) (hp : p (l.getD j d) = true)
    (hfirst : ∀ k < j, ¬ p (l.getD k d) = true) : firstIdx p l = some j := by
  induction l generalizing j with
  | nil => simp at hj
  | cons x xs ih =>
    cases j with
    | zero =>
      simp only [List.getD_cons_zero] at hp
      simp [firstIdx, hp]
    | succ j' =>
      have hx : ¬ p x = true := by simpa using hfirst 0 (Nat.succ_pos _)
      simp only [firstIdx, hx, if_false, Bool.false_eq_true]
      have := ih (j := j') (by simpa using hj) (by simpa using hp)
        (fun k hk => by simpa using hfirst (k + 1) (by omega))
      rw [this]
      rfl

theorem firstIdx_isSome_of_mem {l : List α} {x : α} [BEq α] [LawfulBEq α]
    (h : x ∈ l) : ∃ j, firstIdx (fun v => v == x) l = some j := by
  induction l with
  | nil => simp at h
  | cons y ys ih =>
    by_cases hy : (y == x) = true
    · exact ⟨0, by simp [firstIdx, hy]⟩
    · rcases List.mem_cons.mp h with rfl | h
      · simp at hy
      · obtain ⟨j, hj⟩ := ih h
        exact ⟨j + 1, by simp [firstIdx, hy, hj]⟩

theorem getD_mem {l : List α} {j : ℕ} (d : α) (h : j < l.length) :
    l.getD j d ∈ l := by
  rw [List.getD_eq_getElem _ _ h]
  exact List.getElem_mem _

theorem cbValue_of_not_mem {allVars : List String} {cjRow : List ℚ} {b : String}
    (h : b ∉ allVars) : cbValue allVars cjRow b = 0 := by
  unfold cbValue
  cases hf : firstIdx (fun v => v == b) allVars with
  | none => rfl
  | some j =>
    obtain ⟨hlt, hp, -⟩ := firstIdx_eq_some "" hf
    have hb : allVars.getD j "" = b := by simpa using hp
    exact absurd (hb ▸ getD_mem "" hlt) h

theorem range_map_getD (f : ℕ → α) {cols j : ℕ} (d : α) (h : j < cols) :
    ((List.range cols).map f).getD j d = f j := by
  rw [List.getD_eq_getElem _ _ (by simpa using h)]
  simp

theorem map_getD (f : α → β) {l : List α} {j : ℕ} (d : α) (d' : β)
    (h : j < l.length) : (l.map f).getD j d' = f (l.getD j d) := by
  rw [List.getD_eq_getElem _ _ (by simpa using h), List.getD_eq_getElem _ _ h]
  simp

theorem take_getD {l : List α} {n j : ℕ} (d : α) (h : j < n) :
    (l.take n).getD j d = l.getD j d := by
  rcases Nat.lt_or_ge j l.length with hl | hl
  · rw [List.getD_eq_getElem _ _ (by simp; omega),
      List.getD_eq_getElem _ _ hl]
    exact List.getElem_take _
  · rw [List.getD_eq_default _ _ (by simp; omega), List.getD_eq_default _ _ hl]

theorem foldl_add_range (f : ℕ → ℚ) (n : ℕ) (a : ℚ) :
    (List.range n).foldl (fun s i => s + f i) a = a + ∑ i ∈ Finset.range n, f i := by
  induction n generalizing a with
  | zero => simp
  | succ n ih =>
    rw [List.range_succ, List.foldl_append, ih, Finset.sum_range_succ]
    simp [add_assoc]

theorem zjRowOf_length (table : List (List ℚ)) (cb : List ℚ) (n cols : ℕ) :
    (zjRowOf table cb n cols).length = cols := by
  simp [zjRowOf]

theorem cjZjRowOf_length (cjRow zjR : List ℚ) (cols : ℕ) :
    (cjZjRowOf cjRow zjR cols).length = cols := by
  simp [cjZjRowOf]

theorem zjRowOf_getD {table : List (List ℚ)} {cb : List ℚ} {n cols j : ℕ}
    (h : j < cols) :
    (zjRowOf table cb n cols).getD j 0 =
      ∑ i ∈ Finset.range n, cb.getD i 0 * (table.getD i []).getD j 0 := by
  rw [zjRowOf, range_map_getD _ _ h, foldl_add_range, zero_add]

theorem derivedZj_length (table : List (List ℚ)) (basicVars : List String)
    (cjRow : List ℚ) (allVars : List String) :
    (derivedZj table basicVars cjRow allVars).length = (table.getD 0 []).length := by
  simp [derivedZj, zjRowOf_length]

theorem derivedCz_length (table : List (List ℚ)) (basicVars : List String)
    (cjRow : List ℚ) (allVars : List String) :
    (derivedCz table basicVars cjRow allVars).length = (table.getD 0 []).length := by
  simp [derivedCz, cjZjRowOf_length]

theorem derivedZj_getD {table : List (List ℚ)} {basicVars : List String}
    {cjRow : List ℚ} {allVars : List String} {j : ℕ}
    (h : j < (table.getD 0 []).length) :
    (derivedZj table basicVars cjRow allVars).getD j 0 =
      snapZero eps10 (∑ i ∈ Finset.range (table.length - 2),
        (basicVars.map (cbValue allVars cjRow)).getD i 0 * (table.getD i []).getD j 0) := by
  rw [derivedZj, map_getD _ 0 0 (by rw [zjRowOf_length]; exact h), zjRowOf_getD h]

theorem derivedCz_getD {table : List (List ℚ)} {basicVars : List String}
    {cjRow : List ℚ} {allVars : List String} {j : ℕ}
    (h : j < (table.getD 0 []).length) (hj : j < cjRow.length) :
    (derivedCz table basicVars cjRow allVars).getD j 0 =
      snapZero eps10 (cjRow.getD j 0 - ∑ i ∈ Finset.range (table.length - 2),
        (basicVars.map (cbValue allVars cjRow)).getD i 0 * (table.getD i []).getD j 0) := by
  rw [derivedCz, map_getD _ 0 0 (by rw [cjZjRowOf_length]; exact h),
    cjZjRowOf, range_map_getD _ _ h]
  rw [if_pos hj, zjRowOf_getD h]

theorem derivedCz_getD_rhs {table : List (List ℚ)} {basicVars : List String}
    {cjRow : List ℚ} {allVars : List String} {j : ℕ}
    (h : j < (table.getD 0 []).length) (hj : cjRow.length ≤ j) :
    (derivedCz table basicVars cjRow allVars).getD j 0 = 0 := by
  rw [derivedCz, map_getD _ 0 0 (by rw [cjZjRowOf_length]; exact h),
    cjZjRowOf, range_map_getD _ _ h, if_neg (by omega)]
  simp [snapZero]

theorem cb_map_getD {basicVars : List String} {cjRow : List ℚ}
    {allVars : List String} {i : ℕ} (h : i < basicVars.length) :
    (basicVars.map (cbValue allVars cjRow)).getD i 0 =
      cbValue allVars cjRow (basicVars.getD i "") := by
  exact map_getD _ "" 0 h

end Simplex

namespace Solution

open Simplex

theorem compute_table {table : List (List ℚ)} {basicVars : List String}
    {cjRow : List ℚ} {allVars : List String} (h2 : 2 ≤ table.length) :
    (computeZjAndCjMinusZj table basicVars cjRow allVars).table =
      table.take (table.length - 2) ++
        [derivedZj table basicVars cjRow allVars,
         derivedCz table basicVars cjRow allVars] := by
  simp only [computeZjAndCjMinusZj]
  rw [if_neg (by omega)]
  split
  · rfl
  · split <;> rfl

theorem compute_entering_none_iff {table : List (List ℚ)}
    {basicVars : List String} {cjRow : List ℚ} {allVars : List String}
    (h2 : 2 ≤ table.length) :
    (computeZjAndCjMinusZj table basicVars cjRow allVars).enteringVar = none ↔
      ∀ x ∈ (derivedCz table basicVars cjRow allVars).take allVars.length,
        x ≤ eps10 := by
  simp only [computeZjAndCjMinusZj]
  rw [if_neg (by omega)]
  rcases hm : maxQ ((derivedCz table basicVars cjRow allVars).take allVars.length)
    with _ | m
  · have he := maxQ_eq_none.mp hm
    simp [he]
  · obtain ⟨hmem, hub⟩ := maxQ_spec hm
    by_cases hle : m ≤ eps10
    · exact iff_of_true (by simp [hle]) fun x hx => le_trans (hub x hx) hle
    · exact iff_of_false (by simp [hle]) fun hall => hle (hall m hmem)

theorem compute_branch {table : List (List ℚ)} {basicVars : List String}
    {cjRow : List ℚ} {allVars : List String} {m : ℚ} {j : ℕ}
    (h2 : 2 ≤ table.length)
    (hm : maxQ ((derivedCz table basicVars cjRow allVars).take allVars.length)
      = some m)
    (hgt : eps10 < m)
    (hfi : firstIdx (fun v => v == m)
      ((derivedCz table basicVars cjRow allVars).take allVars.length) = some j) :
    computeZjAndCjMinusZj table basicVars cjRow allVars =
      ⟨table.take (table.length - 2) ++
        [derivedZj table basicVars cjRow allVars,
         derivedCz table basicVars cjRow allVars],
       some (allVars.getD j ""),
       (ratioScan
          (table.take (table.length - 2) ++
            [derivedZj table basicVars cjRow allVars,
             derivedCz table basicVars cjRow allVars])
          (table.length - 2) j (fun row => row.length - 1)).2.map
         fun i => basicVars.getD i ""⟩ := by
  simp only [computeZjAndCjMinusZj]
  rw [if_neg (by omega), hm]
  simp only [if_neg (not_le.mpr hgt), hfi, Option.getD_some]

end Solution

namespace Phase1

open Simplex

theorem p1_compute_table {table : List (List ℚ)} {basicVars : List String}
    {cjRow : List ℚ} {allVars : List String} (h2 : 2 ≤ table.length) :
    (computeZjAndCjMinusZj table basicVars cjRow allVars).table =
      table.take (table.length - 2) ++
        [derivedZj table basicVars cjRow allVars,
         derivedCz table basicVars cjRow allVars] := by
  simp only [computeZjAndCjMinusZj]
  rw [if_neg (by omega)]
  split
  · rfl
  · split <;> rfl

theorem p1_compute_entering_none_iff {table : List (List ℚ)}
    {basicVars : List String} {cjRow : List ℚ} {allVars : List String}
    (h2 : 2 ≤ table.length) :
    (computeZjAndCjMinusZj table basicVars cjRow allVars).enteringVar = none ↔
      ∀ x ∈ (derivedCz table basicVars cjRow allVars).take allVars.length,
        -eps10 ≤ x := by
  simp only [computeZjAndCjMinusZj]
  rw [if_neg (by omega)]
  rcases hm : minQ ((derivedCz table basicVars cjRow allVars).take allVars.length)
    with _ | m
  · have he := minQ_eq_none.mp hm
    simp [he]
  · obtain ⟨hmem, hlb⟩ := minQ_spec hm
    by_cases hle : -eps10 ≤ m
    · exact iff_of_true (by simp [hle]) fun x hx => le_trans hle (hlb x hx)
    · exact iff_of_false (by simp [hle]) fun hall => hle (hall m hmem)

theorem p1_compute_branch {table : List (List ℚ)} {basicVars : List String}
    {cjRow : List ℚ} {allVars : List String} {m : ℚ} {j : ℕ}
    (h2 : 2 ≤ table.length)
    (hm : minQ ((derivedCz table basicVars cjRow allVars).take allVars.length)
      = some m)
    (hlt : m < -eps10)
    (hfi : firstIdx (fun v => v == m)
      ((derivedCz table basicVars cjRow allVars).take allVars.length) = some j) :
    computeZjAndCjMinusZj table basicVars cjRow allVars =
      ⟨table.take (table.length - 2) ++
        [derivedZj table basicVars cjRow allVars,
         derivedCz table basicVars cjRow allVars],
       some (allVars.getD j ""),
       (ratioScan
          (table.take (table.length - 2) ++
            [derivedZj table basicVars cjRow allVars,
             derivedCz table basicVars cjRow allVars])
          (table.length - 2) j (fun row => row.length - 1)).2.map
         fun i => basicVars.getD i ""⟩ := by
  simp only [computeZjAndCjMinusZj]
  rw [if_neg (by omega), hm]
  simp only [if_neg (not_le.mpr hlt), hfi, Option.getD_some]

end Phase1

namespace Simplex

theorem eps10_pos : 0 < eps10 := by norm_num [eps10]

theorem eps12_lt_eps10 : eps12 < eps10 := by norm_num [eps12, eps10]

theorem ratioStep_fst_none {t : List (List ℚ)} {col : ℕ}
    {rhsIdxOf : List ℚ → ℕ} {st : Option ℚ × Option ℕ} {i : ℕ}
    (h1 : st.1 = none) :
    ratioStep t col rhsIdxOf st i =
      if eps10 < colCoeff t col i then
        if -eps10 ≤ rowRatQ t col rhsIdxOf i then
          (some (rowRatQ t col rhsIdxOf i), some i)
        else st
      else st := by
  obtain ⟨a, b⟩ := st
  simp only at h1
  subst h1
  rfl

theorem ratioStep_fst_some {t : List (List ℚ)} {col : ℕ}
    {rhsIdxOf : List ℚ → ℕ} {st : Option ℚ × Option ℕ} {i : ℕ} {m : ℚ}
    (h1 : st.1 = some m) :
    ratioStep t col rhsIdxOf st i =
      if eps10 < colCoeff t col i then
        if -eps10 ≤ rowRatQ t col rhsIdxOf i ∧
            rowRatQ t col rhsIdxOf i < m - eps10 then
          (some (rowRatQ t col rhsIdxOf i), some i)
        else st
      else st := by
  obtain ⟨a, b⟩ := st
  simp only at h1
  subst h1
  rfl

theorem ratioScan_succ (t : List (List ℚ)) (n col : ℕ)
    (rhsIdxOf : List ℚ → ℕ) :
    ratioScan t (n + 1) col rhsIdxOf =
      ratioStep t col rhsIdxOf (ratioScan t n col rhsIdxOf) n := by
  rw [ratioScan, ratioScan, List.range_succ, List.foldl_append, List.foldl_cons,
    List.foldl_nil]

theorem ratioScan_spec (t : List (List ℚ)) (col : ℕ) (rhsIdxOf : List ℚ → ℕ)
    (n : ℕ) :
    (ratioScan t n col rhsIdxOf = (none, none) ∧
      ∀ k < n, ¬ admissible t col rhsIdxOf k) ∨
    (∃ i, ratioScan t n col rhsIdxOf =
        (some (rowRatQ t col rhsIdxOf i), some i) ∧
      i < n ∧ admissible t col rhsIdxOf i ∧
      (∀ k < i, admissible t col rhsIdxOf k →
        rowRatQ t col rhsIdxOf i < rowRatQ t col rhsIdxOf k) ∧
      (∀ k, i < k → k < n → admissible t col rhsIdxOf k →
        rowRatQ t col rhsIdxOf i ≤ rowRatQ t col rhsIdxOf k + eps10)) := by
  induction n with
  | zero => exact Or.inl ⟨rfl, by omega⟩
  | succ n ih =>
    rcases ih with ⟨hsc, hnone⟩ | ⟨i, hsc, hin, hadm, hearly, hlate⟩
    · rw [ratioScan_succ, ratioStep_fst_none (by rw [hsc]), hsc]
      by_cases hc : eps10 < colCoeff t col n
      · rw [if_pos hc]
        by_cases hr : -eps10 ≤ rowRatQ t col rhsIdxOf n
        · rw [if_pos hr]
          exact Or.inr ⟨n, rfl, by omega, ⟨hc, hr⟩,
            fun k hk hak => absurd hak (hnone k hk),
            fun k h1 h2 => absurd h1 (by omega)⟩
        · rw [if_neg hr]
          refine Or.inl ⟨rfl, fun k hk => ?_⟩
          rcases Nat.lt_or_ge k n with h | h
          · exact hnone k h
          · obtain rfl : k = n := by omega
            exact fun hak => hr hak.2
      · rw [if_neg hc]
        refine Or.inl ⟨rfl, fun k hk => ?_⟩
        rcases Nat.lt_or_ge k n with h | h
        · exact hnone k h
        · obtain rfl : k = n := by omega
          exact fun hak => hc hak.1
    · rw [ratioScan_succ, ratioStep_fst_some (by rw [hsc]), hsc]
      by_cases hc : eps10 < colCoeff t col n
      · rw [if_pos hc]
        by_cases hupd : -eps10 ≤ rowRatQ t col rhsIdxOf n ∧
            rowRatQ t col rhsIdxOf n < rowRatQ t col rhsIdxOf i - eps10
        · rw [if_pos hupd]
          refine Or.inr ⟨n, rfl, by omega, ⟨hc, hupd.1⟩, ?_,
            fun k h1 h2 => absurd h1 (by omega)⟩
          intro k hk hak
          have heps := eps10_pos
          rcases Nat.lt_trichotomy k i with h | rfl | h
          · have := hearly k h hak
            linarith [hupd.2]
          · linarith [hupd.2]
          · have := hlate k h hk hak
            linarith [hupd.2]
        · rw [if_neg hupd]
          refine Or.inr ⟨i, rfl, by omega, hadm, hearly, ?_⟩
          intro k hik hk hak
          rcases Nat.lt_or_ge k n with h | h
          · exact hlate k hik h hak
          · obtain rfl : k = n := by omega
            have hnot : ¬ rowRatQ t col rhsIdxOf k <
                rowRatQ t col rhsIdxOf i - eps10 := fun hlt => hupd ⟨hak.2, hlt⟩
            linarith
      · rw [if_neg hc]
        refine Or.inr ⟨i, rfl, by omega, hadm, hearly, ?_⟩
        intro k hik hk hak
        rcases Nat.lt_or_ge k n with h | h
        · exact hlate k hik h hak
        · obtain rfl : k = n := by omega
          exact absurd hak.1 hc

theorem ratioScan_none_iff {t : List (List ℚ)} {n col : ℕ}
    {rhsIdxOf : List ℚ → ℕ} :
    (ratioScan t n col rhsIdxOf).2 = none ↔
      ∀ k < n, ¬ admissible t col rhsIdxOf k := by
  rcases ratioScan_spec t col rhsIdxOf n with ⟨hsc, hnone⟩ |
    ⟨i, hsc, hin, hadm, -, -⟩
  · rw [hsc]
    exact iff_of_true rfl hnone
  · rw [hsc]
    exact iff_of_false (by simp) fun hall => hall i hin hadm

theorem ratioScan_some {t : List (List ℚ)} {n col : ℕ}
    {rhsIdxOf : List ℚ → ℕ} {i : ℕ}
    (h : (ratioScan t n col rhsIdxOf).2 = some i) :
    i < n ∧ admissible t col rhsIdxOf i ∧
    (∀ k < i, admissible t col rhsIdxOf k →
      rowRatQ t col rhsIdxOf i < rowRatQ t col rhsIdxOf k) ∧
    (∀ k, i < k → k < n → admissible t col rhsIdxOf k →
      rowRatQ t col rhsIdxOf i ≤ rowRatQ t col rhsIdxOf k + eps10) ∧
    (ratioScan t n col rhsIdxOf).1 = some (rowRatQ t col rhsIdxOf i) := by
  rcases ratioScan_spec t col rhsIdxOf n with ⟨hsc, -⟩ |
    ⟨i', hsc, hin, hadm, hearly, hlate⟩
  · rw [hsc] at h
    simp at h
  · rw [hsc] at h
    obtain rfl : i' = i := by simpa using h
    exact ⟨hin, hadm, hearly, hlate, by rw [hsc]⟩

end Simplex

namespace Simplex

theorem take_length_sub_two (table : List (List ℚ)) :
    (table.take (table.length - 2)).length = table.length - 2 := by
  simp

theorem newTable_length {table : List (List ℚ)} (zj cz : List ℚ)
    (h2 : 2 ≤ table.length) :
    (table.take (table.length - 2) ++ [zj, cz]).length = table.length := by
  simp
  omega

theorem newTable_getD_lt {table : List (List ℚ)} (zj cz : List ℚ) {i : ℕ}
    (h : i < table.length - 2) :
    (table.take (table.length - 2) ++ [zj, cz]).getD i [] = table.getD i [] := by
  rw [List.getD_append _ _ _ _ (by simp; omega), take_getD _ h]

theorem newTable_getD_zj {table : List (List ℚ)} (zj cz : List ℚ) :
    (table.take (table.length - 2) ++ [zj, cz]).getD (table.length - 2) [] = zj := by
  have hl := take_length_sub_two table
  rw [List.getD_append_right _ _ _ _ (le_of_eq hl), hl, Nat.sub_self]
  rfl

theorem newTable_getD_cz {table : List (List ℚ)} (zj cz : List ℚ)
    (h2 : 2 ≤ table.length) :
    (table.take (table.length - 2) ++ [zj, cz]).getD (table.length - 1) [] = cz := by
  have hl := take_length_sub_two table
  rw [List.getD_append_right _ _ _ _ (by omega), hl]
  have h1 : table.length - 1 - (table.length - 2) = 1 := by omega
  rw [h1]
  rfl

theorem colCoeff_newTable {table : List (List ℚ)} (zj cz : List ℚ)
    {col i : ℕ} (h : i < table.length - 2) :
    colCoeff (table.take (table.length - 2) ++ [zj, cz]) col i =
      colCoeff table col i := by
  unfold colCoeff
  rw [newTable_getD_lt zj cz h]

theorem rowRatQ_newTable {table : List (List ℚ)} (zj cz : List ℚ)
    {col i : ℕ} (rhsIdxOf : List ℚ → ℕ) (h : i < table.length - 2) :
    rowRatQ (table.take (table.length - 2) ++ [zj, cz]) col rhsIdxOf i =
      rowRatQ table col rhsIdxOf i := by
  unfold rowRatQ colCoeff
  rw [newTable_getD_lt zj cz h]

theorem admissible_newTable {table : List (List ℚ)} (zj cz : List ℚ)
    {col i : ℕ} (rhsIdxOf : List ℚ → ℕ) (h : i < table.length - 2) :
    (admissible (table.take (table.length - 2) ++ [zj, cz]) col rhsIdxOf i ↔
      admissible table col rhsIdxOf i) := by
  unfold admissible
  rw [colCoeff_newTable zj cz h, rowRatQ_newTable zj cz rhsIdxOf h]

theorem eps12_pos : 0 < eps12 := by norm_num [eps12]

theorem eps12_lt_one : eps12 < 1 := by norm_num [eps12]

theorem eps12_lt_eps9 : eps12 < eps9 := by norm_num [eps12, eps9]

theorem snapZero_self (e : ℚ) : snapZero e 0 = 0 := by
  unfold snapZero
  split <;> rfl

theorem snapZero_one_eps12 : snapZero eps12 1 = 1 := by
  norm_num [snapZero, eps12]

end Simplex

namespace Solution

open Simplex

theorem performPivot_error_iff (t : List (List ℚ)) (r c : ℕ) :
    (∃ e, performPivot t r c = .error e) ↔ |(t.getD r []).getD c 0| < eps12 := by
  unfold performPivot
  by_cases h : |(t.getD r []).getD c 0| < eps12
  · rw [if_pos h]
    exact iff_of_true ⟨_, rfl⟩ h
  · rw [if_neg h]
    exact iff_of_false (by simp) h

theorem performPivot_ok (t : List (List ℚ)) (r c : ℕ)
    (h : ¬ |(t.getD r []).getD c 0| < eps12) :
    performPivot t r c =
      .ok (mapIdxFrom
        (fun i row =>
          if i = r then pivotRowNorm t r c
          else if i < t.length - 2 then pivotElimRow t r c row
          else row) 0 t) := by
  unfold performPivot pivotElimRow pivotRowNorm
  rw [if_neg h]

end Solution

namespace Solution

open Simplex

theorem pivotRowNorm_getD_c {t : List (List ℚ)} {r c : ℕ}
    (hrlen : c < (t.getD r []).length) (hc : c < (t.getD 0 []).length)
    (hne : (t.getD r []).getD c 0 ≠ 0) :
    (pivotRowNorm t r c).getD c 0 = 1 := by
  unfold pivotRowNorm
  rw [mapIdxFrom_getD _ 0 c _ 0 0 hrlen, Nat.zero_add, if_pos hc,
    div_self hne]
  exact snapZero_one_eps12

theorem pivotElimRow_getD_c {t : List (List ℚ)} {r c : ℕ} {row : List ℚ}
    (hrowlen : c < row.length) (hc : c < (t.getD 0 []).length)
    (hpr1 : (pivotRowNorm t r c).getD c 0 = 1) :
    |(pivotElimRow t r c row).getD c 0| < eps12 := by
  simp only [pivotElimRow]
  by_cases hf : |row.getD c 0| < eps12
  · rw [if_pos hf]
    exact hf
  · rw [if_neg hf, mapIdxFrom_getD _ 0 c _ 0 0 hrowlen, Nat.zero_add,
      if_pos hc, hpr1, mul_one, sub_self, snapZero_self]
    simpa using eps12_pos

end Solution

/-- C3: for every tableau and every pivot position whose pivot element has
absolute value at least `1e-12` (a completed pivot), the table returned by
`performPivot` has the entering (pivot) column as an identity column over the
constraint rows: entry `1` in the pivot row and `0` in every other constraint
row, within floating-point tolerance `1e-9`. -/
theorem C3_pivot_identity_column
    (table : List (List ℚ)) (r c : ℕ) (t' : List (List ℚ))
    (hrect : ∀ row ∈ table, row.length = (table.getD 0 []).length)
    (hr : r < table.length - 2) (hc : c < (table.getD 0 []).length)
    (hpiv : Simplex.eps12 ≤ |(table.getD r []).getD c 0|)
    (hok : Solution.performPivot table r c = .ok t') :
    |(t'.getD r []).getD c 0 - 1| ≤ Simplex.eps9 ∧
    ∀ i < table.length - 2, i ≠ r → |(t'.getD i []).getD c 0| ≤ Simplex.eps9 := by
  have hnot : ¬ |(table.getD r []).getD c 0| < Simplex.eps12 := not_lt.mpr hpiv
  rw [Solution.performPivot_ok _ _ _ hnot] at hok
  injection hok with hX
  subst hX
  have hne : (table.getD r []).getD c 0 ≠ 0 := by
    intro h0
    rw [h0, abs_zero] at hpiv
    exact absurd hpiv (not_le.mpr Simplex.eps12_pos)
  have hrlen : (table.getD r []).length = (table.getD 0 []).length :=
    hrect _ (Simplex.getD_mem [] (by omega))
  have hpr1 : (Solution.pivotRowNorm table r c).getD c 0 = 1 :=
    Solution.pivotRowNorm_getD_c (by omega) hc hne
  constructor
  · rw [Simplex.mapIdxFrom_getD _ 0 r table [] [] (by omega), Nat.zero_add,
      if_pos rfl, hpr1]
    norm_num [Simplex.eps9]
  · intro i hi hne'
    rw [Simplex.mapIdxFrom_getD _ 0 i table [] [] (by omega), Nat.zero_add,
      if_neg hne', if_pos hi]
    have hilen : (table.getD i []).length = (table.getD 0 []).length :=
      hrect _ (Simplex.getD_mem [] (by omega))
    exact le_of_lt (lt_trans
      (Solution.pivotElimRow_getD_c (by omega) hc hpr1) Simplex.eps12_lt_eps9)

attribute [local semireducible] Rat.mul Rat.inv Rat.add Rat.sub Rat.ofScientific

/-- Witness for C3 at a concrete tableau: pivot on entry `(0,0)` of value
`2`, yielding the table `[[1,2],[0,-1],[0,0],[0,0]]`. -/
theorem C3_pivot_identity_column_witness :
    Simplex.eps12 ≤ |(([[(2 : ℚ), 4], [1, 1], [0, 0], [0, 0]].getD 0 []).getD 0 0)| ∧
    (|(([[(1 : ℚ), 2], [0, -1], [0, 0], [0, 0]].getD 0 []).getD 0 0) - 1| ≤ Simplex.eps9 ∧
     ∀ i < 2, i ≠ 0 →
       |(([[(1 : ℚ), 2], [0, -1], [0, 0], [0, 0]].getD i []).getD 0 0)| ≤ Simplex.eps9) := by
  refine ⟨by decide, ?_⟩
  exact C3_pivot_identity_column [[(2 : ℚ), 4], [1, 1], [0, 0], [0, 0]] 0 0
    [[(1 : ℚ), 2], [0, -1], [0, 0], [0, 0]] (by decide) (by decide) (by decide)
    (by decide) (by rfl)

/-- C5: `performPivot` reports a pivot error if and only if the absolute
value of the pivot element is below `1e-12`; and whenever a pivot error is
raised during a step, the session state remains at the pre-pivot tableau (the
input table, basis, `Cj` and variable list are unchanged and no partial
elimination is committed) and the step surfaces an "Error during pivot"
message instead of crashing. -/
theorem C5_pivot_error_handling :
    (∀ (t : List (List ℚ)) (r c : ℕ),
      (∃ e, Solution.performPivot t r c = .error e) ↔
        |(t.getD r []).getD c 0| < Simplex.eps12) ∧
    (∀ (s : Simplex.SimplexState) (enteringIndex leavingRowIdx : ℕ),
      |(s.table.getD leavingRowIdx []).getD enteringIndex 0| < Simplex.eps12 →
      (Solution.applyPivotStep s enteringIndex leavingRowIdx).table = s.table ∧
      (Solution.applyPivotStep s enteringIndex leavingRowIdx).basics = s.basics ∧
      (Solution.applyPivotStep s enteringIndex leavingRowIdx).cj = s.cj ∧
      (Solution.applyPivotStep s enteringIndex leavingRowIdx).vars = s.vars ∧
      (Solution.applyPivotStep s enteringIndex leavingRowIdx).iteration = s.iteration ∧
      (Solution.applyPivotStep s enteringIndex leavingRowIdx).message =
        some "Error during pivot: Pivot value is too close to zero.") := by
  constructor
  · exact fun t r c => Solution.performPivot_error_iff t r c
  · intro s eIdx lIdx h
    have herr : Solution.performPivot s.table lIdx eIdx =
        .error "Pivot value is too close to zero." := by
      unfold Solution.performPivot
      rw [if_pos h]
    unfold Solution.applyPivotStep
    rw [herr]
    exact ⟨rfl, rfl, rfl, rfl, rfl, rfl⟩

/-- Witness for C5 at a concrete session state whose step pivots on a zero
entry. -/
theorem C5_pivot_error_handling_witness :
    |(((Simplex.SimplexState.mk [[0, 1], [0, 0], [0, 0]] ["x1"] [1] ["s1"] 1
        none none none).table.getD 0 []).getD 0 0)| < Simplex.eps12 ∧
    (Solution.applyPivotStep (Simplex.SimplexState.mk [[0, 1], [0, 0], [0, 0]]
        ["x1"] [1] ["s1"] 1 none none none) 0 0).table =
      (Simplex.SimplexState.mk [[0, 1], [0, 0], [0, 0]] ["x1"] [1] ["s1"] 1
        none none none).table ∧
    (Solution.applyPivotStep (Simplex.SimplexState.mk [[0, 1], [0, 0], [0, 0]]
        ["x1"] [1] ["s1"] 1 none none none) 0 0).message =
      some "Error during pivot: Pivot value is too close to zero." :=
  ⟨by decide,
   (C5_pivot_error_handling.2 (Simplex.SimplexState.mk
     [[0, 1], [0, 0], [0, 0]] ["x1"] [1] ["s1"] 1 none none none) 0 0
     (by decide)).1,
   (C5_pivot_error_handling.2 (Simplex.SimplexState.mk
     [[0, 1], [0, 0], [0, 0]] ["x1"] [1] ["s1"] 1 none none none) 0 0
     (by decide)).2.2.2.2.2⟩

namespace Simplex

theorem mem_iff_exists_getD {l : List ℚ} {v : ℚ} :
    v ∈ l ↔ ∃ k, k < l.length ∧ l.getD k 0 = v := by
  rw [List.mem_iff_getElem]
  constructor
  · rintro ⟨k, hk, rfl⟩
    exact ⟨k, hk, List.getD_eq_getElem _ _ hk⟩
  · rintro ⟨k, hk, rfl⟩
    exact ⟨k, hk, (List.getD_eq_getElem _ _ hk).symm⟩

theorem firstIdx_beq_of_strict {l : List ℚ} {j : ℕ} (hj : j < l.length)
    (hstrict : ∀ k < j, l.getD k 0 < l.getD j 0) :
    firstIdx (fun v => v == l.getD j 0) l = some j := by
  refine firstIdx_of_spec 0 hj (by simp) fun k hk => ?_
  simp only [beq_iff_eq]
  exact ne_of_lt (hstrict k hk)

theorem firstIdx_beq_of_strict_gt {l : List ℚ} {j : ℕ} (hj : j < l.length)
    (hstrict : ∀ k < j, l.getD j 0 < l.getD k 0) :
    firstIdx (fun v => v == l.getD j 0) l = some j := by
  refine firstIdx_of_spec 0 hj (by simp) fun k hk => ?_
  simp only [beq_iff_eq]
  exact (ne_of_lt (hstrict k hk)).symm

end Simplex

/-- C1: for every tableau with filled `Cj - Zj` row: in the maximize phase,
`computeZjAndCjMinusZj` selects as entering variable the variable column
holding the strictly largest `Cj - Zj` value, breaking ties by first
occurrence in column order, and reports no entering variable (optimal)
exactly when that maximum is `≤ 1e-10`; in the minimize/Phase-1 phase it is
symmetric, selecting the column with the strictly smallest `Cj - Zj` value
and reporting optimal exactly when that minimum is `≥ -1e-10`.  The variable
columns scanned are the first `allVars.length` entries of the derived row, so
the RHS column is never a candidate. -/
theorem C1_entering_variable_rule :
    (∀ (table : List (List ℚ)) (basicVars : List String) (cjRow : List ℚ)
        (allVars : List String), 2 ≤ table.length →
      (let czv := (Simplex.derivedCz table basicVars cjRow allVars).take
        allVars.length
      ((Solution.computeZjAndCjMinusZj table basicVars cjRow
          allVars).enteringVar = none ↔ ∀ x ∈ czv, x ≤ Simplex.eps10) ∧
      ∀ j, j < czv.length → Simplex.eps10 < czv.getD j 0 →
        (∀ k < czv.length, czv.getD k 0 ≤ czv.getD j 0) →
        (∀ k < j, czv.getD k 0 < czv.getD j 0) →
        (Solution.computeZjAndCjMinusZj table basicVars cjRow
          allVars).enteringVar = some (allVars.getD j ""))) ∧
    (∀ (table : List (List ℚ)) (basicVars : List String) (cjRow : List ℚ)
        (allVars : List String), 2 ≤ table.length →
      (let czv := (Simplex.derivedCz table basicVars cjRow allVars).take
        allVars.length
      ((Phase1.computeZjAndCjMinusZj table basicVars cjRow
          allVars).enteringVar = none ↔ ∀ x ∈ czv, -Simplex.eps10 ≤ x) ∧
      ∀ j, j < czv.length → czv.getD j 0 < -Simplex.eps10 →
        (∀ k < czv.length, czv.getD j 0 ≤ czv.getD k 0) →
        (∀ k < j, czv.getD j 0 < czv.getD k 0) →
        (Phase1.computeZjAndCjMinusZj table basicVars cjRow
          allVars).enteringVar = some (allVars.getD j ""))) := by
  constructor
  · intro table basicVars cjRow allVars h2
    refine ⟨Solution.compute_entering_none_iff h2, ?_⟩
    intro j hj hgt hub hstrict
    have hmem := Simplex.getD_mem (l := (Simplex.derivedCz table basicVars
      cjRow allVars).take allVars.length) 0 hj
    have hubm : ∀ v ∈ (Simplex.derivedCz table basicVars cjRow allVars).take
        allVars.length, v ≤ ((Simplex.derivedCz table basicVars cjRow
          allVars).take allVars.length).getD j 0 := by
      intro v hv
      obtain ⟨k, hk, rfl⟩ := Simplex.mem_iff_exists_getD.mp hv
      exact hub k hk
    have hmQ := Simplex.maxQ_eq_of_spec hmem hubm
    have hfi := Simplex.firstIdx_beq_of_strict hj hstrict
    rw [Solution.compute_branch h2 hmQ hgt hfi]
  · intro table basicVars cjRow allVars h2
    refine ⟨Phase1.p1_compute_entering_none_iff h2, ?_⟩
    intro j hj hlt hlb hstrict
    have hmem := Simplex.getD_mem (l := (Simplex.derivedCz table basicVars
      cjRow allVars).take allVars.length) 0 hj
    have hlbm : ∀ v ∈ (Simplex.derivedCz table basicVars cjRow allVars).take
        allVars.length, ((Simplex.derivedCz table basicVars cjRow
          allVars).take allVars.length).getD j 0 ≤ v := by
      intro v hv
      obtain ⟨k, hk, rfl⟩ := Simplex.mem_iff_exists_getD.mp hv
      exact hlb k hk
    have hmQ := Simplex.minQ_eq_of_spec hmem hlbm
    have hfi := Simplex.firstIdx_beq_of_strict_gt hj hstrict
    rw [Phase1.p1_compute_branch h2 hmQ hlt hfi]

/-- Witness for C1: a one-constraint maximize tableau where `x1` has the
unique positive reduced cost `3`, and a Phase-1 style tableau where `x1` has
the unique negative reduced cost `-1`. -/
theorem C1_entering_variable_rule_witness :
    ((2 : ℕ) ≤ 3 ∧
      (Solution.computeZjAndCjMinusZj [[1, 2], [0, 0], [0, 0]] ["s1"] [3]
        ["x1"]).enteringVar = some "x1") ∧
    ((2 : ℕ) ≤ 3 ∧
      (Phase1.computeZjAndCjMinusZj [[1, 2], [0, 0], [0, 0]] ["s1"] [-1]
        ["x1"]).enteringVar = some "x1") := by
  constructor
  · exact ⟨by decide, (C1_entering_variable_rule.1 [[1, 2], [0, 0], [0, 0]]
      ["s1"] [3] ["x1"] (by decide)).2 0 (by decide) (by decide)
      (by decide) (by decide)⟩
  · exact ⟨by decide, (C1_entering_variable_rule.2 [[1, 2], [0, 0], [0, 0]]
      ["s1"] [-1] ["x1"] (by decide)).2 0 (by decide) (by decide)
      (by decide) (by decide)⟩

/-- C4: for every tableau, basis assignment, `Cj` vector and variable list,
`computeZjAndCjMinusZj` fills the derived rows as
`Zj[col] = Σ over constraint rows of (objective coefficient of the row's
basic variable) × tableau[row][col]`;
`(Cj-Zj)[col] = Cj[col] - Zj[col]` for variable columns and `0` for the RHS
column; and every entry of either derived row whose absolute magnitude is
below `1e-10` is snapped to exactly `0` (the `snapZero eps10` in the stated
equations); the constraint rows are passed through unchanged. -/
theorem C4_derived_rows (table : List (List ℚ)) (basicVars : List String)
    (cjRow : List ℚ) (allVars : List String)
    (h2 : 2 ≤ table.length)
    (hrect : ∀ row ∈ table, row.length = allVars.length + 1)
    (hcj : cjRow.length = allVars.length)
    (hbas : basicVars.length = table.length - 2) :
    (Solution.computeZjAndCjMinusZj table basicVars cjRow
      allVars).table.length = table.length ∧
    (∀ i < table.length - 2,
      (Solution.computeZjAndCjMinusZj table basicVars cjRow
        allVars).table.getD i [] = table.getD i []) ∧
    (∀ j < allVars.length + 1,
      ((Solution.computeZjAndCjMinusZj table basicVars cjRow
        allVars).table.getD (table.length - 2) []).getD j 0 =
        Simplex.snapZero Simplex.eps10 (∑ i ∈ Finset.range (table.length - 2),
          Simplex.cbValue allVars cjRow (basicVars.getD i "") *
            (table.getD i []).getD j 0)) ∧
    (∀ j < allVars.length,
      ((Solution.computeZjAndCjMinusZj table basicVars cjRow
        allVars).table.getD (table.length - 1) []).getD j 0 =
        Simplex.snapZero Simplex.eps10 (cjRow.getD j 0 -
          ∑ i ∈ Finset.range (table.length - 2),
            Simplex.cbValue allVars cjRow (basicVars.getD i "") *
              (table.getD i []).getD j 0)) ∧
    ((Solution.computeZjAndCjMinusZj table basicVars cjRow
      allVars).table.getD (table.length - 1) []).getD allVars.length 0 = 0 := by
  have hcols : (table.getD 0 []).length = allVars.length + 1 :=
    hrect _ (Simplex.getD_mem [] (by omega))
  have hsum : ∀ j,
      (∑ i ∈ Finset.range (table.length - 2),
        (basicVars.map (Simplex.cbValue allVars cjRow)).getD i 0 *
          (table.getD i []).getD j 0) =
      ∑ i ∈ Finset.range (table.length - 2),
        Simplex.cbValue allVars cjRow (basicVars.getD i "") *
          (table.getD i []).getD j 0 := by
    intro j
    refine Finset.sum_congr rfl fun i hi => ?_
    rw [Simplex.cb_map_getD (by rw [hbas]; exact Finset.mem_range.mp hi)]
  rw [Solution.compute_table h2]
  refine ⟨Simplex.newTable_length _ _ h2,
    fun i hi => Simplex.newTable_getD_lt _ _ hi, ?_, ?_, ?_⟩
  · intro j hj
    rw [Simplex.newTable_getD_zj,
      Simplex.derivedZj_getD (by omega), hsum j]
  · intro j hj
    rw [Simplex.newTable_getD_cz _ _ h2,
      Simplex.derivedCz_getD (by omega) (by omega), hsum j]
  · rw [Simplex.newTable_getD_cz _ _ h2,
      Simplex.derivedCz_getD_rhs (by omega) (by omega)]

/-- Witness for C4 at a one-constraint tableau. -/
theorem C4_derived_rows_witness :
    ((2 : ℕ) ≤ 3 ∧
      (∀ row ∈ [[(1 : ℚ), 2], [0, 0], [0, 0]], row.length = 2) ∧
      [(3 : ℚ)].length = 1 ∧ ["s1"].length = 1) ∧
    (Solution.computeZjAndCjMinusZj [[(1 : ℚ), 2], [0, 0], [0, 0]] ["s1"] [3]
      ["x1"]).table.length = 3 ∧
    ((Solution.computeZjAndCjMinusZj [[(1 : ℚ), 2], [0, 0], [0, 0]] ["s1"] [3]
      ["x1"]).table.getD 2 []).getD 1 0 = 0 := by
  have h := C4_derived_rows [[(1 : ℚ), 2], [0, 0], [0, 0]] ["s1"] [3] ["x1"]
    (by decide) (by decide) (by decide) (by decide)
  exact ⟨⟨by decide, by decide, by decide, by decide⟩, h.1, h.2.2.2.2⟩

/-- C10: `computeZjAndCjMinusZj` is total over basis assignments: a basis
entry naming a variable that does not occur in the variable list (as can
happen after the Phase-2 `"s1"` fallback when no slack variable exists) gets
objective coefficient `0` from the `CB` lookup instead of failing, so the
derived rows are still computed (rows with unknown basic variables contribute
nothing to `Zj`) and no operation crashes. -/
theorem C10_cb_fallback_total :
    (∀ (allVars : List String) (cjRow : List ℚ) (b : String),
      b ∉ allVars → Simplex.cbValue allVars cjRow b = 0) ∧
    (∀ (table : List (List ℚ)) (basicVars : List String) (cjRow : List ℚ)
        (allVars : List String), 2 ≤ table.length →
      basicVars.length = table.length - 2 →
      (Phase2.computeZjAndCjMinusZj table basicVars cjRow
        allVars).table.length = table.length ∧
      ∀ j < (table.getD 0 []).length,
        ((Phase2.computeZjAndCjMinusZj table basicVars cjRow
          allVars).table.getD (table.length - 2) []).getD j 0 =
          Simplex.snapZero Simplex.eps10 (∑ i ∈ Finset.range (table.length - 2),
            (if basicVars.getD i "" ∈ allVars then
              Simplex.cbValue allVars cjRow (basicVars.getD i "") else 0) *
              (table.getD i []).getD j 0)) := by
  refine ⟨fun allVars cjRow b h => Simplex.cbValue_of_not_mem h, ?_⟩
  intro table basicVars cjRow allVars h2 hbas
  have heq : Phase2.computeZjAndCjMinusZj = Solution.computeZjAndCjMinusZj := rfl
  rw [heq, Solution.compute_table h2]
  refine ⟨Simplex.newTable_length _ _ h2, ?_⟩
  intro j hj
  rw [Simplex.newTable_getD_zj, Simplex.derivedZj_getD hj]
  congr 1
  refine Finset.sum_congr rfl fun i hi => ?_
  rw [Simplex.cb_map_getD (by rw [hbas]; exact Finset.mem_range.mp hi)]
  by_cases hb : basicVars.getD i "" ∈ allVars
  · rw [if_pos hb]
  · rw [if_neg hb, Simplex.cbValue_of_not_mem hb]

/-- Witness for C10: the basis entry `"s1"` does not occur in the variable
list `["x1"]`, yet the derived rows are computed. -/
theorem C10_cb_fallback_total_witness :
    ("s1" ∉ ["x1"] ∧ Simplex.cbValue ["x1"] [3] "s1" = 0) ∧
    ((2 : ℕ) ≤ 3 ∧ ["s1"].length = 1 ∧
      (Phase2.computeZjAndCjMinusZj [[(1 : ℚ), 5], [0, 0], [0, 0]] ["s1"] [3]
        ["x1"]).table.length = 3) := by
  refine ⟨⟨by decide, C10_cb_fallback_total.1 ["x1"] [3] "s1" (by decide)⟩,
    by decide, by decide, ?_⟩
  exact (C10_cb_fallback_total.2 [[(1 : ℚ), 5], [0, 0], [0, 0]] ["s1"] [3]
    ["x1"] (by decide) (by decide)).1

/-- C2 counterexample: with constraint rows `[1, 1]` and
`[1, 1 - 5e-11]` in the entering column `x1`, both rows qualify for the ratio
test and row 1 has the strictly smallest ratio (`1 - 5e-11 < 1`), yet the
code keeps row 0 (basic variable `s1`) as the leaving row because a row
displaces the incumbent only when its ratio is more than `1e-10` smaller.
The claim "selects the row with the strictly smallest ratio, breaking ties by
first occurrence" is therefore false as stated. -/
theorem C2_ratio_test_counterexample :
    (Solution.computeZjAndCjMinusZj
      [[1, 1], [1, 1 - 1/20000000000], [0, 0], [0, 0]] ["s1", "s2"] [1]
      ["x1"]).enteringVar = some "x1" ∧
    (Solution.computeZjAndCjMinusZj
      [[1, 1], [1, 1 - 1/20000000000], [0, 0], [0, 0]] ["s1", "s2"] [1]
      ["x1"]).leavingVar = some "s1" ∧
    Simplex.eps10 < Simplex.colCoeff
      [[1, 1], [1, 1 - 1/20000000000], [0, 0], [0, 0]] 0 0 ∧
    Simplex.eps10 < Simplex.colCoeff
      [[1, 1], [1, 1 - 1/20000000000], [0, 0], [0, 0]] 0 1 ∧
    -Simplex.eps10 ≤ Simplex.rowRatQ
      [[1, 1], [1, 1 - 1/20000000000], [0, 0], [0, 0]] 0
      (fun row => row.length - 1) 0 ∧
    -Simplex.eps10 ≤ Simplex.rowRatQ
      [[1, 1], [1, 1 - 1/20000000000], [0, 0], [0, 0]] 0
      (fun row => row.length - 1) 1 ∧
    Simplex.rowRatQ [[1, 1], [1, 1 - 1/20000000000], [0, 0], [0, 0]] 0
      (fun row => row.length - 1) 1 <
    Simplex.rowRatQ [[1, 1], [1, 1 - 1/20000000000], [0, 0], [0, 0]] 0
      (fun row => row.length - 1) 0 := by
  refine ⟨?_, ?_, by decide, by decide, by decide, by decide, by decide⟩
  · rfl
  · rfl

/-- C2 (amended): for every tableau and chosen entering column, the ratio
test considers exactly the constraint rows whose entering-column coefficient
is `> 1e-10` and whose ratio `RHS / coefficient` is `≥ -1e-10`; it selects a
considered row whose ratio is strictly smaller than the ratio of every
earlier considered row and at most `1e-10` greater than the ratio of every
later considered row (a later row displaces the incumbent only when its ratio
is more than `1e-10` smaller, so exact ties keep the first row); if no row is
considered, the entering variable is named and no leaving variable is
returned by `computeZjAndCjMinusZj`. -/
theorem C2_ratio_test_amended :
    (∀ (t : List (List ℚ)) (n col : ℕ) (rhsIdxOf : List ℚ → ℕ),
      ((Simplex.ratioScan t n col rhsIdxOf).2 = none ↔
        ∀ i < n, ¬ Simplex.admissible t col rhsIdxOf i) ∧
      (∀ i, (Simplex.ratioScan t n col rhsIdxOf).2 = some i →
        i < n ∧ Simplex.admissible t col rhsIdxOf i ∧
        (∀ k < i, Simplex.admissible t col rhsIdxOf k →
          Simplex.rowRatQ t col rhsIdxOf i < Simplex.rowRatQ t col rhsIdxOf k) ∧
        (∀ k, i < k → k < n → Simplex.admissible t col rhsIdxOf k →
          Simplex.rowRatQ t col rhsIdxOf i ≤
            Simplex.rowRatQ t col rhsIdxOf k + Simplex.eps10))) ∧
    (∀ (table : List (List ℚ)) (basicVars : List String) (cjRow : List ℚ)
        (allVars : List String), 2 ≤ table.length →
      ∀ j, j < ((Simplex.derivedCz table basicVars cjRow allVars).take
          allVars.length).length →
        Simplex.eps10 < ((Simplex.derivedCz table basicVars cjRow
          allVars).take allVars.length).getD j 0 →
        (∀ k < ((Simplex.derivedCz table basicVars cjRow allVars).take
            allVars.length).length,
          ((Simplex.derivedCz table basicVars cjRow allVars).take
            allVars.length).getD k 0 ≤
          ((Simplex.derivedCz table basicVars cjRow allVars).take
            allVars.length).getD j 0) →
        (∀ k < j, ((Simplex.derivedCz table basicVars cjRow allVars).take
            allVars.length).getD k 0 <
          ((Simplex.derivedCz table basicVars cjRow allVars).take
            allVars.length).getD j 0) →
        (((∀ i < table.length - 2,
            ¬ Simplex.admissible table j (fun row => row.length - 1) i) →
          (Solution.computeZjAndCjMinusZj table basicVars cjRow
            allVars).enteringVar = some (allVars.getD j "") ∧
          (Solution.computeZjAndCjMinusZj table basicVars cjRow
            allVars).leavingVar = none) ∧
         (∀ i0, i0 < table.length - 2 →
            Simplex.admissible table j (fun row => row.length - 1) i0 →
          ∃ i, i < table.length - 2 ∧
            Simplex.admissible table j (fun row => row.length - 1) i ∧
            (Solution.computeZjAndCjMinusZj table basicVars cjRow
              allVars).leavingVar = some (basicVars.getD i "") ∧
            (∀ k < i, Simplex.admissible table j (fun row => row.length - 1) k →
              Simplex.rowRatQ table j (fun row => row.length - 1) i <
                Simplex.rowRatQ table j (fun row => row.length - 1) k) ∧
            (∀ k, i < k → k < table.length - 2 →
              Simplex.admissible table j (fun row => row.length - 1) k →
              Simplex.rowRatQ table j (fun row => row.length - 1) i ≤
                Simplex.rowRatQ table j (fun row => row.length - 1) k +
                  Simplex.eps10)))) := by
  constructor
  · intro t n col rhsIdxOf
    refine ⟨Simplex.ratioScan_none_iff, ?_⟩
    intro i hi
    obtain ⟨h1, h2, h3, h4, -⟩ := Simplex.ratioScan_some hi
    exact ⟨h1, h2, h3, h4⟩
  · intro table basicVars cjRow allVars h2 j hj hgt hub hstrict
    have hmem := Simplex.getD_mem (l := (Simplex.derivedCz table basicVars
      cjRow allVars).take allVars.length) 0 hj
    have hubm : ∀ v ∈ (Simplex.derivedCz table basicVars cjRow allVars).take
        allVars.length, v ≤ ((Simplex.derivedCz table basicVars cjRow
          allVars).take allVars.length).getD j 0 := by
      intro v hv
      obtain ⟨k, hk, rfl⟩ := Simplex.mem_iff_exists_getD.mp hv
      exact hub k hk
    have hmQ := Simplex.maxQ_eq_of_spec hmem hubm
    have hfi := Simplex.firstIdx_beq_of_strict hj hstrict
    rw [Solution.compute_branch h2 hmQ hgt hfi]
    constructor
    · intro hno
      refine ⟨rfl, ?_⟩
      have hnone : (Simplex.ratioScan
          (table.take (table.length - 2) ++
            [Simplex.derivedZj table basicVars cjRow allVars,
             Simplex.derivedCz table basicVars cjRow allVars])
          (table.length - 2) j (fun row => row.length - 1)).2 = none := by
        rw [Simplex.ratioScan_none_iff]
        intro k hk hak
        exact hno k hk ((Simplex.admissible_newTable _ _ _ hk).mp hak)
      simp only [hnone]
      rfl
    · intro i0 hi0 hai0
      rcases hscan : (Simplex.ratioScan
          (table.take (table.length - 2) ++
            [Simplex.derivedZj table basicVars cjRow allVars,
             Simplex.derivedCz table basicVars cjRow allVars])
          (table.length - 2) j (fun row => row.length - 1)).2 with _ | i
      · exfalso
        exact (Simplex.ratioScan_none_iff.mp hscan) i0 hi0
          ((Simplex.admissible_newTable _ _ _ hi0).mpr hai0)
      · obtain ⟨h1, h2', h3, h4, -⟩ := Simplex.ratioScan_some hscan
        refine ⟨i, h1, (Simplex.admissible_newTable _ _ _ h1).mp h2', ?_, ?_, ?_⟩
        · simp only [hscan]
          rfl
        · intro k hk hak
          have := h3 k hk ((Simplex.admissible_newTable _ _ _ (by omega)).mpr hak)
          rwa [Simplex.rowRatQ_newTable _ _ _ h1,
            Simplex.rowRatQ_newTable _ _ _ (by omega)] at this
        · intro k hik hk hak
          have := h4 k hik hk ((Simplex.admissible_newTable _ _ _ hk).mpr hak)
          rwa [Simplex.rowRatQ_newTable _ _ _ h1,
            Simplex.rowRatQ_newTable _ _ _ hk] at this

/-- Witness for the amended C2 at the counterexample tableau: row 0 is
admissible, and the selected leaving row `s1` satisfies the amended bounds. -/
theorem C2_ratio_test_amended_witness :
    ((2 : ℕ) ≤ 4 ∧
      (0 : ℕ) < 1 ∧
      Simplex.eps10 < ((Simplex.derivedCz
        [[1, 1], [1, 1 - 1/20000000000], [0, 0], [0, 0]] ["s1", "s2"] [1]
        ["x1"]).take 1).getD 0 0 ∧
      Simplex.admissible [[1, 1], [1, 1 - 1/20000000000], [0, 0], [0, 0]] 0
        (fun row => row.length - 1) 0) ∧
    ∃ i, i < 2 ∧
      Simplex.admissible [[1, 1], [1, 1 - 1/20000000000], [0, 0], [0, 0]] 0
        (fun row => row.length - 1) i ∧
      (Solution.computeZjAndCjMinusZj
        [[1, 1], [1, 1 - 1/20000000000], [0, 0], [0, 0]] ["s1", "s2"] [1]
        ["x1"]).leavingVar = some (["s1", "s2"].getD i "") ∧
      (∀ k < i, Simplex.admissible
          [[1, 1], [1, 1 - 1/20000000000], [0, 0], [0, 0]] 0
          (fun row => row.length - 1) k →
        Simplex.rowRatQ [[1, 1], [1, 1 - 1/20000000000], [0, 0], [0, 0]] 0
          (fun row => row.length - 1) i <
        Simplex.rowRatQ [[1, 1], [1, 1 - 1/20000000000], [0, 0], [0, 0]] 0
          (fun row => row.length - 1) k) ∧
      (∀ k, i < k → k < 2 → Simplex.admissible
          [[1, 1], [1, 1 - 1/20000000000], [0, 0], [0, 0]] 0
          (fun row => row.length - 1) k →
        Simplex.rowRatQ [[1, 1], [1, 1 - 1/20000000000], [0, 0], [0, 0]] 0
          (fun row => row.length - 1) i ≤
        Simplex.rowRatQ [[1, 1], [1, 1 - 1/20000000000], [0, 0], [0, 0]] 0
          (fun row => row.length - 1) k + Simplex.eps10) := by
  refine ⟨⟨by decide, by decide, by decide, by decide⟩, ?_⟩
  exact (C2_ratio_test_amended.2
    [[1, 1], [1, 1 - 1/20000000000], [0, 0], [0, 0]] ["s1", "s2"] [1] ["x1"]
    (by decide) 0 (by decide) (by decide) (by decide) (by decide)).2
    0 (by decide) (by decide)

namespace Solution

open Simplex

theorem handleNextIteration_optimal (s : SimplexState)
    (h2 : 2 ≤ s.table.length)
    (hall : ∀ x ∈ (s.table.getD (s.table.length - 1) []).take s.vars.length,
      x ≤ eps10) :
    handleNextIteration s =
      { s with message := some optimalMsg, enteringVar := none,
               leavingVar := none } := by
  simp only [handleNextIteration]
  rw [if_neg (by omega)]
  rcases hm : maxQ ((s.table.getD (s.table.length - 1) []).take s.vars.length)
    with _ | m
  · rfl
  · have hle : m ≤ eps10 := hall m (maxQ_spec hm).1
    simp [hle]

end Solution

/-- C8: for every session state whose stored derived rows are consistent with
`computeZjAndCjMinusZj` (as holds for every state the session produces), if
`computeZjAndCjMinusZj` reports no entering variable (optimal), then a
subsequent step (`handleNextIteration`) leaves the tableau, basis, `Cj` and
variable list unchanged and reports the "Optimal solution reached." message;
and the `≤ 1e-10` optimality criterion of the derived-row computation
coincides with the one the step applies to the stored `Cj - Zj` row. -/
theorem C8_optimal_step_noop (s : Simplex.SimplexState)
    (h2 : 2 ≤ s.table.length)
    (hcons : s.table = (Solution.computeZjAndCjMinusZj s.table s.basics s.cj
      s.vars).table) :
    ((Solution.computeZjAndCjMinusZj s.table s.basics s.cj
      s.vars).enteringVar = none ↔
      ∀ x ∈ (s.table.getD (s.table.length - 1) []).take s.vars.length,
        x ≤ Simplex.eps10) ∧
    ((Solution.computeZjAndCjMinusZj s.table s.basics s.cj
      s.vars).enteringVar = none →
      (Solution.handleNextIteration s).table = s.table ∧
      (Solution.handleNextIteration s).vars = s.vars ∧
      (Solution.handleNextIteration s).cj = s.cj ∧
      (Solution.handleNextIteration s).basics = s.basics ∧
      (Solution.handleNextIteration s).iteration = s.iteration ∧
      (Solution.handleNextIteration s).enteringVar = none ∧
      (Solution.handleNextIteration s).leavingVar = none ∧
      (Solution.handleNextIteration s).message =
        some "Optimal solution reached.") := by
  have hlast : s.table.getD (s.table.length - 1) [] =
      Simplex.derivedCz s.table s.basics s.cj s.vars := by
    have hT := hcons
    rw [Solution.compute_table h2] at hT
    have hlen := Simplex.newTable_length
      (Simplex.derivedZj s.table s.basics s.cj s.vars)
      (Simplex.derivedCz s.table s.basics s.cj s.vars) h2
    conv_lhs => rw [hT]
    rw [hlen]
    exact Simplex.newTable_getD_cz _ _ h2
  have hiff := @Solution.compute_entering_none_iff s.table s.basics s.cj
    s.vars h2
  constructor
  · rw [hlast]
    exact hiff
  · intro hopt
    have hall : ∀ x ∈ (s.table.getD (s.table.length - 1) []).take
        s.vars.length, x ≤ Simplex.eps10 := by
      rw [hlast]
      exact hiff.mp hopt
    rw [Solution.handleNextIteration_optimal s h2 hall]
    exact ⟨rfl, rfl, rfl, rfl, rfl, rfl, rfl, rfl⟩

/-- Witness for C8 at a concrete consistent optimal state. -/
theorem C8_optimal_step_noop_witness :
    ((2 : ℕ) ≤ 3 ∧
      (Simplex.SimplexState.mk [[1, 2], [0, 0], [0, 0]] ["x1"] [0] ["s1"] 1
        none none none).table =
        (Solution.computeZjAndCjMinusZj [[1, 2], [0, 0], [0, 0]] ["s1"] [0]
          ["x1"]).table ∧
      (Solution.computeZjAndCjMinusZj [[1, 2], [0, 0], [0, 0]] ["s1"] [0]
        ["x1"]).enteringVar = none) ∧
    (Solution.handleNextIteration (Simplex.SimplexState.mk
      [[1, 2], [0, 0], [0, 0]] ["x1"] [0] ["s1"] 1 none none none)).table =
      [[1, 2], [0, 0], [0, 0]] ∧
    (Solution.handleNextIteration (Simplex.SimplexState.mk
      [[1, 2], [0, 0], [0, 0]] ["x1"] [0] ["s1"] 1 none none none)).message =
      some "Optimal solution reached." := by
  have h := (C8_optimal_step_noop (Simplex.SimplexState.mk
    [[1, 2], [0, 0], [0, 0]] ["x1"] [0] ["s1"] 1 none none none)
    (by decide) (by rfl)).2 (by rfl)
  exact ⟨⟨by decide, by rfl, by rfl⟩, h.1, h.2.2.2.2.2.2.2⟩

namespace Phase1

open Simplex

theorem p1_handleNextIteration_optimal (s : Phase1State)
    (h2 : 2 ≤ s.table.length)
    (hall : ∀ x ∈ (s.table.getD (s.table.length - 1) []).take s.vars.length,
      -eps10 ≤ x) :
    handleNextIteration s = phase1Terminal { s with message := none } := by
  simp only [handleNextIteration]
  rw [if_neg (by omega)]
  rcases hm : minQ ((s.table.getD (s.table.length - 1) []).take s.vars.length)
    with _ | m
  · rfl
  · have hle : -eps10 ≤ m := hall m (minQ_spec hm).1
    simp [hle]

end Phase1

/-- C6: whenever Phase 1 reaches optimality (minimum `Cj - Zj` over variable
columns `≥ -1e-10`), the Phase-1 objective value inspected is the `Zj` entry
under the RHS column: if its absolute value is `< 1e-10` the problem is
declared feasible and Phase 2 becomes reachable (`phase1Complete` is set),
otherwise the terminal message states the original problem is infeasible and
Phase 2 is not unlocked; in both cases the tableau is left unchanged and no
entering/leaving variable is reported. -/
theorem C6_phase1_feasibility (s : Phase1.Phase1State)
    (h2 : 2 ≤ s.table.length)
    (hopt : ∀ x ∈ (s.table.getD (s.table.length - 1) []).take s.vars.length,
      -Simplex.eps10 ≤ x) :
    ((|(s.table.getD (s.table.length - 2) []).getD
        ((s.table.getD 0 []).length - 1) 0| < Simplex.eps10 →
      (Phase1.handleNextIteration s).message =
        some "Phase 1 complete. Feasible solution found. Ready for Phase 2." ∧
      (Phase1.handleNextIteration s).complete = true) ∧
     (¬ |(s.table.getD (s.table.length - 2) []).getD
        ((s.table.getD 0 []).length - 1) 0| < Simplex.eps10 →
      (Phase1.handleNextIteration s).message =
        some "Phase 1 complete. Original problem is infeasible." ∧
      (Phase1.handleNextIteration s).complete = s.complete)) ∧
    (Phase1.handleNextIteration s).table = s.table ∧
    (Phase1.handleNextIteration s).enteringVar = none ∧
    (Phase1.handleNextIteration s).leavingVar = none := by
  rw [Phase1.p1_handleNextIteration_optimal s h2 hopt]
  simp only [Phase1.phase1Terminal]
  by_cases hw : |(s.table.getD (s.table.length - 2) []).getD
      ((s.table.getD 0 []).length - 1) 0| < Simplex.eps10
  · rw [if_pos hw]
    exact ⟨⟨fun _ => ⟨rfl, rfl⟩, fun hn => absurd hw hn⟩, rfl, rfl, rfl⟩
  · rw [if_neg hw]
    exact ⟨⟨fun hy => absurd hy hw, fun _ => ⟨rfl, rfl⟩⟩, rfl, rfl, rfl⟩

/-- Witness for C6 at a Phase-1-optimal state whose objective value `W = 2`
is nonzero: infeasibility is reported and Phase 2 stays locked. -/
theorem C6_phase1_feasibility_witness :
    ((2 : ℕ) ≤ 3 ∧
      (∀ x ∈ (([[1, 1, 2], [0, 0, 2], [0, 0, 0]] :
          List (List ℚ)).getD 2 []).take 2, -Simplex.eps10 ≤ x)) ∧
    (Phase1.handleNextIteration (Phase1.Phase1State.mk
      [[1, 1, 2], [0, 0, 2], [0, 0, 0]] ["x1", "a1"] [0, 1] ["a1"] 1
      none none none false)).message =
      some "Phase 1 complete. Original problem is infeasible." ∧
    (Phase1.handleNextIteration (Phase1.Phase1State.mk
      [[1, 1, 2], [0, 0, 2], [0, 0, 0]] ["x1", "a1"] [0, 1] ["a1"] 1
      none none none false)).complete = false := by
  have h := C6_phase1_feasibility (Phase1.Phase1State.mk
    [[1, 1, 2], [0, 0, 2], [0, 0, 0]] ["x1", "a1"] [0, 1] ["a1"] 1
    none none none false) (by decide) (by decide)
  have h2 := h.1.2 (by decide)
  exact ⟨⟨by decide, by decide⟩, h2.1, h2.2⟩

namespace Solution

open Simplex

set_option maxHeartbeats 2000000 in
theorem solveRec_spec (k : ℕ) :
    ∀ (vars : List String) (cj : List ℚ) (table : List (List ℚ))
      (basics : List String) (iter : ℕ), 101 - iter ≤ k →
    (solveRec vars cj table basics iter).pivots ≤ 101 - iter ∧
    ((solveRec vars cj table basics iter).message = stoppedMsg ∨
     (solveRec vars cj table basics iter).message = optimalMsg ∨
     (solveRec vars cj table basics iter).message = unboundedMsg) ∧
    ((solveRec vars cj table basics iter).message = stoppedMsg →
      101 ≤ iter + (solveRec vars cj table basics iter).pivots) := by
  induction k with
  | zero =>
    intro vars cj table basics iter hk
    rw [solveRec, if_pos (by omega : 100 < iter)]
    exact ⟨Nat.zero_le _, Or.inl rfl, fun _ => by omega⟩
  | succ k ih =>
    intro vars cj table basics iter hk
    rw [solveRec]
    by_cases hstop : 100 < iter
    · rw [if_pos hstop]
      exact ⟨Nat.zero_le _, Or.inl rfl, fun _ => by omega⟩
    · rw [if_neg hstop]
      have haux : ∀ (tNew : List (List ℚ)) (bNew : List String),
          (solveRec vars cj tNew bNew (iter + 1)).pivots + 1 ≤ 101 - iter ∧
          ((solveRec vars cj tNew bNew (iter + 1)).message = stoppedMsg ∨
           (solveRec vars cj tNew bNew (iter + 1)).message = optimalMsg ∨
           (solveRec vars cj tNew bNew (iter + 1)).message = unboundedMsg) ∧
          ((solveRec vars cj tNew bNew (iter + 1)).message = stoppedMsg →
            101 ≤ iter + ((solveRec vars cj tNew bNew (iter + 1)).pivots + 1)) := by
        intro tNew bNew
        obtain ⟨h1, h2, h3⟩ := ih vars cj tNew bNew (iter + 1) (by omega)
        exact ⟨by omega, h2, fun hm => by have := h3 hm; omega⟩
      dsimp only
      split
      · exact ⟨Nat.zero_le _, Or.inr (Or.inl rfl), fun hmsg =>
          by simp [optimalMsg, stoppedMsg] at hmsg⟩
      · split
        · exact ⟨Nat.zero_le _, Or.inr (Or.inl rfl), fun hmsg =>
            by simp [optimalMsg, stoppedMsg] at hmsg⟩
        · split
          · exact ⟨Nat.zero_le _, Or.inr (Or.inr rfl), fun hmsg =>
              by simp [unboundedMsg, stoppedMsg] at hmsg⟩
          · next leavingRowIdx hscan =>
            split
            · next e herr =>
              exfalso
              obtain ⟨-, ⟨hcol, -⟩, -, -, -⟩ := Simplex.ratioScan_some hscan
              have hlt := (performPivot_error_iff _ _ _).mp ⟨_, herr⟩
              unfold Simplex.colCoeff at hcol
              rw [abs_of_pos (lt_trans Simplex.eps10_pos hcol)] at hlt
              exact absurd hlt (not_lt.mpr (le_of_lt
                (lt_trans Simplex.eps12_lt_eps10 hcol)))
            · exact haux _ _

end Solution

/-- C9: `handleSolveToOptimal` repeats single solve steps and terminates for
every input (it is a total function of the session state): it stops when the
tableau is optimal, when the problem is unbounded, or when the hard cap of
100 iterations is reached, in which case it reports the distinct message
"Stopped: reached maximum automatic iterations limit." rather than crashing
or reporting optimality (the cap message only appears when the iteration
counter actually passed 100), so at most 100 pivots are ever performed by one
auto-solve started at iteration ≥ 1. -/
theorem C9_solve_termination_cap (s : Simplex.SimplexState)
    (h1 : 1 ≤ s.iteration) :
    (Solution.handleSolveToOptimal s).pivots ≤ 100 ∧
    ((Solution.handleSolveToOptimal s).message =
        "Stopped: reached maximum automatic iterations limit." ∨
     (Solution.handleSolveToOptimal s).message = "Optimal solution reached." ∨
     (Solution.handleSolveToOptimal s).message =
        "Problem is unbounded (no valid leaving variable).") ∧
    ((Solution.handleSolveToOptimal s).message =
        "Stopped: reached maximum automatic iterations limit." →
      101 ≤ s.iteration + (Solution.handleSolveToOptimal s).pivots) ∧
    ("Stopped: reached maximum automatic iterations limit." : String) ≠
      "Optimal solution reached." := by
  obtain ⟨p1, p2, p3⟩ := Solution.solveRec_spec 101 s.vars s.cj s.table
    s.basics s.iteration (by omega)
  have hdef : Solution.handleSolveToOptimal s =
      Solution.solveRec s.vars s.cj s.table s.basics s.iteration := rfl
  rw [hdef]
  exact ⟨by omega, p2, fun hm => p3 hm, by decide⟩

/-- Witness for C9 at a concrete already-optimal session state at
iteration 1. -/
theorem C9_solve_termination_cap_witness :
    (1 : ℕ) ≤ 1 ∧
    (Solution.handleSolveToOptimal (Simplex.SimplexState.mk
      [[1, 2], [0, 0], [0, 0]] ["x1"] [0] ["s1"] 1 none none none)).pivots
      ≤ 100 ∧
    ((Solution.handleSolveToOptimal (Simplex.SimplexState.mk
      [[1, 2], [0, 0], [0, 0]] ["x1"] [0] ["s1"] 1 none none none)).message =
        "Stopped: reached maximum automatic iterations limit." ∨
     (Solution.handleSolveToOptimal (Simplex.SimplexState.mk
      [[1, 2], [0, 0], [0, 0]] ["x1"] [0] ["s1"] 1 none none none)).message =
        "Optimal solution reached." ∨
     (Solution.handleSolveToOptimal (Simplex.SimplexState.mk
      [[1, 2], [0, 0], [0, 0]] ["x1"] [0] ["s1"] 1 none none none)).message =
        "Problem is unbounded (no valid leaving variable).") := by
  have h := C9_solve_termination_cap (Simplex.SimplexState.mk
    [[1, 2], [0, 0], [0, 0]] ["x1"] [0] ["s1"] 1 none none none) (by decide)
  exact ⟨by decide, h.1, h.2.1⟩

namespace Simplex

theorem filterMap_congr_mem {f g : α → Option β} :
    ∀ (l : List α), (∀ x ∈ l, f x = g x) → l.filterMap f = l.filterMap g
  | [], _ => rfl
  | x :: xs, h => by
    rw [List.filterMap_cons, List.filterMap_cons, h x (by simp),
      filterMap_congr_mem xs fun y hy => h y (List.mem_cons_of_mem _ hy)]

theorem contains_range_filter {q : ℕ → Bool} {n j : ℕ} (hj : j < n) :
    ((List.range n).filter q).contains j = q j := by
  by_cases hq : q j = true
  · have : j ∈ (List.range n).filter q := by
      rw [List.mem_filter]
      exact ⟨List.mem_range.mpr hj, hq⟩
    rw [hq]
    exact List.elem_eq_true_of_mem this
  · have : j ∉ (List.range n).filter q := by
      rw [List.mem_filter]
      rintro ⟨-, hc⟩
      exact hq hc
    simp only [Bool.not_eq_true] at hq
    rw [hq]
    exact Bool.not_eq_true _ ▸ (by simpa using this)

theorem find?_first {p : α → Bool} (d : α) :
    ∀ {l : List α} {v : α}, l.find? p = some v →
    ∃ j, j < l.length ∧ l.getD j d = v ∧ p v = true ∧
      ∀ k < j, ¬ p (l.getD k d) = true := by
  intro l
  induction l with
  | nil => intro v h; simp at h
  | cons x xs ih =>
    intro v h
    by_cases hx : p x = true
    · rw [List.find?_cons_of_pos _ hx] at h
      obtain rfl : x = v := by simpa using h
      exact ⟨0, by simp, rfl, hx, by omega⟩
    · rw [List.find?_cons_of_neg _ hx] at h
      obtain ⟨j, hj, hval, hp, hfirst⟩ := ih h
      refine ⟨j + 1, by simpa using hj, by simpa using hval, hp, ?_⟩
      intro k hk
      cases k with
      | zero => simpa using hx
      | succ k' => simpa using hfirst k' (by omega)

end Simplex

namespace Phase2

open Simplex

theorem buildPhase2Objective_getD (optType : String) (orig : List ℚ) :
    ∀ (vs : List String) (oi i : ℕ), i < vs.length →
      oi + (vs.filter fun v => strStarts v "x").length ≤ orig.length →
      (buildPhase2Objective optType orig oi vs).getD i 0 =
        if strStarts (vs.getD i "") "x" then
          (if optType == "Minimize" then
            -(orig.getD (oi + ((vs.take i).filter fun v =>
              strStarts v "x").length) 0)
          else orig.getD (oi + ((vs.take i).filter fun v =>
            strStarts v "x").length) 0)
        else 0 := by
  intro vs
  induction vs with
  | nil => intro oi i hi; simp at hi
  | cons v vs ih =>
    intro oi i hi hbound
    by_cases hv : strStarts v "x" = true
    · have hflen : ((v :: vs).filter fun v => strStarts v "x").length =
          (vs.filter fun v => strStarts v "x").length + 1 := by
        rw [@List.filter_cons_of_pos _ (fun v => strStarts v "x") v vs hv]
        rfl
      have hoi : oi < orig.length := by omega
      rw [show buildPhase2Objective optType orig oi (v :: vs) =
          (if optType == "Minimize" then -(orig.getD oi 0)
            else orig.getD oi 0) ::
            buildPhase2Objective optType orig (oi + 1) vs by
        rw [buildPhase2Objective, if_pos hv, if_pos hoi]]
      cases i with
      | zero => simp [hv]
      | succ i' =>
        rw [List.getD_cons_succ,
          ih (oi + 1) i' (by simpa using hi) (by omega)]
        have harith : oi + 1 + ((vs.take i').filter fun v =>
            strStarts v "x").length =
            oi + (((v :: vs).take (i' + 1)).filter fun v =>
              strStarts v "x").length := by
          rw [List.take_succ_cons,
            @List.filter_cons_of_pos _ (fun v => strStarts v "x") v
              (vs.take i') hv, List.length_cons]
          omega
        rw [harith, List.getD_cons_succ]
    · have hflen : ((v :: vs).filter fun v => strStarts v "x") =
          vs.filter fun v => strStarts v "x" :=
        @List.filter_cons_of_neg _ (fun v => strStarts v "x") v vs
          (by simpa using hv)
      rw [show buildPhase2Objective optType orig oi (v :: vs) =
          0 :: buildPhase2Objective optType orig oi vs by
        rw [buildPhase2Objective, if_neg hv]]
      cases i with
      | zero => simp [hv]
      | succ i' =>
        rw [List.getD_cons_succ,
          ih oi i' (by simpa using hi) (by rw [hflen] at hbound; omega),
          List.getD_cons_succ, List.take_succ_cons,
          @List.filter_cons_of_neg _ (fun v => strStarts v "x") v
            (vs.take i') (by simpa using hv)]

end Phase2

namespace Phase2

open Simplex

theorem range_filterMap_zip :
    ∀ (vars : List String) (row : List ℚ), vars.length ≤ row.length →
    (List.range vars.length).filterMap (fun j =>
      if strStarts (vars.getD j "") "a" then none else some (row.getD j 0)) =
    (vars.zip (row.take vars.length)).filterMap (fun pr =>
      if strStarts pr.1 "a" then none else some pr.2) := by
  intro vars
  induction vars with
  | nil => intro row h; rfl
  | cons v vs ih =>
    intro row h
    cases row with
    | nil => simp at h
    | cons r row' =>
      have hlen : vs.length ≤ row'.length := by simpa using h
      have htail : ((List.range vs.length).map (· + 1)).filterMap (fun j =>
          if strStarts ((v :: vs).getD j "") "a" then none
          else some ((r :: row').getD j 0)) =
          (vs.zip (row'.take vs.length)).filterMap (fun pr =>
            if strStarts pr.1 "a" then none else some pr.2) := by
        rw [List.filterMap_map]
        calc ((List.range vs.length).filterMap ((fun j =>
            if strStarts ((v :: vs).getD j "") "a" then none
            else some ((r :: row').getD j 0)) ∘ (· + 1)))
            = (List.range vs.length).filterMap (fun j =>
              if strStarts (vs.getD j "") "a" then none
              else some (row'.getD j 0)) :=
              filterMap_congr_mem _ fun j hj => rfl
          _ = (vs.zip (row'.take vs.length)).filterMap (fun pr =>
              if strStarts pr.1 "a" then none else some pr.2) := ih row' hlen
      rw [List.length_cons, List.range_succ_eq_map, List.filterMap_cons,
        List.take_succ_cons, List.zip_cons_cons, List.filterMap_cons, htail]
      by_cases hva : strStarts v "a" = true
      · simp [hva]
      · simp [hva]

end Phase2

/-- C7: for every Phase-1 terminal state handed to Phase-2 construction:
every artificial-variable column is dropped from the table and the variable
list; the rebuilt `Cj` gives each decision variable its original objective
coefficient (negated when the direction is minimize) and gives slack and
surplus variables `0`; and every constraint row whose basis entry was an
artificial variable has that entry reassigned to the first available slack
variable, falling back to `"s1"` when none exists. -/
theorem C7_phase2_construction (originalObjective : List ℚ)
    (phase1Table : List (List ℚ))
    (phase1Variables phase1BasicVariables : List String) (optType : String)
    (hrect : ∀ row ∈ phase1Table, row.length = phase1Variables.length + 1)
    (hx : ((phase1Variables.filter fun v => !Simplex.strStarts v "a").filter fun v =>
      Simplex.strStarts v "x").length ≤ originalObjective.length) :
    (Phase2.createPhase2Table originalObjective phase1Table phase1Variables
      phase1BasicVariables optType).vars =
      phase1Variables.filter (fun v => !Simplex.strStarts v "a") ∧
    (∀ v ∈ (Phase2.createPhase2Table originalObjective phase1Table
      phase1Variables phase1BasicVariables optType).vars,
      ¬ Simplex.strStarts v "a" = true) ∧
    (∀ i < phase1Table.length - 2,
      (Phase2.createPhase2Table originalObjective phase1Table phase1Variables
        phase1BasicVariables optType).table.getD i [] =
        ((phase1Variables.zip ((phase1Table.getD i []).take
          phase1Variables.length)).filterMap fun pr =>
            if Simplex.strStarts pr.1 "a" then none else some pr.2) ++
        [(phase1Table.getD i []).getD phase1Variables.length 0]) ∧
    (∀ i < (phase1Variables.filter fun v => !Simplex.strStarts v "a").length,
      (Phase2.createPhase2Table originalObjective phase1Table phase1Variables
        phase1BasicVariables optType).cj.getD i 0 =
        if Simplex.strStarts ((phase1Variables.filter fun v =>
            !Simplex.strStarts v "a").getD i "") "x" then
          (if optType == "Minimize" then
            -(originalObjective.getD ((((phase1Variables.filter fun v =>
              !Simplex.strStarts v "a").take i).filter fun v =>
                Simplex.strStarts v "x").length) 0)
          else originalObjective.getD ((((phase1Variables.filter fun v =>
            !Simplex.strStarts v "a").take i).filter fun v =>
              Simplex.strStarts v "x").length) 0)
        else 0) ∧
    (∃ fb,
      ((∃ j, j < (phase1Variables.filter fun v => !Simplex.strStarts v "a").length ∧
        (phase1Variables.filter fun v => !Simplex.strStarts v "a").getD j "" = fb ∧
        Simplex.strStarts fb "s" = true ∧
        ∀ k < j, ¬ Simplex.strStarts ((phase1Variables.filter fun v =>
          !Simplex.strStarts v "a").getD k "") "s" = true) ∨
       ((∀ v ∈ phase1Variables.filter fun v => !Simplex.strStarts v "a",
          ¬ Simplex.strStarts v "s" = true) ∧ fb = "s1")) ∧
      ∀ i < phase1BasicVariables.length,
        (Phase2.createPhase2Table originalObjective phase1Table
          phase1Variables phase1BasicVariables optType).basics.getD i "" =
          if Simplex.strStarts (phase1BasicVariables.getD i "") "a" then fb
          else phase1BasicVariables.getD i "") := by
  simp only [Phase2.createPhase2Table]
  refine ⟨trivial, ?_, ?_, ?_, ?_⟩
  · intro v hv
    simpa using (List.mem_filter.mp hv).2
  · intro i hi
    have hi2 : i < phase1Table.length := by omega
    have hrow : (phase1Table.getD i []).length = phase1Variables.length + 1 :=
      hrect _ (Simplex.getD_mem [] hi2)
    rw [List.getD_append _ _ _ _ (by simp; omega),
      Simplex.map_getD _ [] [] (by simp; omega), Simplex.take_getD _ hi]
    have hhead : (List.range phase1Variables.length).filterMap (fun j =>
        if ((List.range phase1Variables.length).filter fun j =>
            Simplex.strStarts (phase1Variables.getD j "") "a").contains j then none
        else some ((phase1Table.getD i []).getD j 0)) =
        (phase1Variables.zip ((phase1Table.getD i []).take
          phase1Variables.length)).filterMap fun pr =>
            if Simplex.strStarts pr.1 "a" then none else some pr.2 := by
      rw [Simplex.filterMap_congr_mem (List.range phase1Variables.length)
        (g := fun j => if Simplex.strStarts (phase1Variables.getD j "") "a" then none
          else some ((phase1Table.getD i []).getD j 0))
        fun j hj => by
          rw [Simplex.contains_range_filter (List.mem_range.mp hj)]]
      exact Phase2.range_filterMap_zip phase1Variables (phase1Table.getD i [])
        (by omega)
    rw [hhead, if_pos (by omega : 0 < (phase1Table.getD i []).length)]
    have hidx : (phase1Table.getD i []).length - 1 = phase1Variables.length :=
      by omega
    rw [hidx]
  · intro i hi
    rw [Phase2.buildPhase2Objective_getD optType originalObjective _ 0 i hi
      (by simpa using hx)]
    simp only [Nat.zero_add]
  · refine ⟨((phase1Variables.filter fun v => !Simplex.strStarts v "a").find? fun v =>
      Simplex.strStarts v "s").getD "s1", ?_, ?_⟩
    · cases hf : (phase1Variables.filter fun v => !Simplex.strStarts v "a").find?
        (fun v => Simplex.strStarts v "s") with
      | none =>
        refine Or.inr ⟨?_, rfl⟩
        intro v hv
        exact by simpa using List.find?_eq_none.mp hf v hv
      | some w =>
        obtain ⟨j, hj, hval, hp, hfirst⟩ := Simplex.find?_first "" hf
        exact Or.inl ⟨j, hj, hval, hp, hfirst⟩
    · intro i hi
      rw [Simplex.map_getD _ "" "" hi]

/-- Witness for C7: a two-constraint Phase-1 state with variables
`x1, s1, e1, a1`, basis `[s1, a1]` and a minimize objective `[2]`. -/
theorem C7_phase2_construction_witness :
    (∀ row ∈ ([[1, 1, 0, 0, 3], [1, 0, -1, 1, 2], [0, 0, 0, 0, 0],
      [0, 0, 0, 0, 0]] : List (List ℚ)), row.length = 5) ∧
    ((["x1", "s1", "e1", "a1"].filter fun v => !Simplex.strStarts v "a").filter
      fun v => Simplex.strStarts v "x").length ≤ 1 ∧
    (Phase2.createPhase2Table [2]
      [[1, 1, 0, 0, 3], [1, 0, -1, 1, 2], [0, 0, 0, 0, 0], [0, 0, 0, 0, 0]]
      ["x1", "s1", "e1", "a1"] ["s1", "a1"] "Minimize").vars =
      ["x1", "s1", "e1"] ∧
    (Phase2.createPhase2Table [2]
      [[1, 1, 0, 0, 3], [1, 0, -1, 1, 2], [0, 0, 0, 0, 0], [0, 0, 0, 0, 0]]
      ["x1", "s1", "e1", "a1"] ["s1", "a1"] "Minimize").table.getD 1 [] =
      [1, 0, -1, 2] := by
  have h := C7_phase2_construction [2]
    [[1, 1, 0, 0, 3], [1, 0, -1, 1, 2], [0, 0, 0, 0, 0], [0, 0, 0, 0, 0]]
    ["x1", "s1", "e1", "a1"] ["s1", "a1"] "Minimize" (by decide) (by decide)
  refine ⟨by decide, by decide, ?_, ?_⟩
  · rw [h.1]
    decide
  · rw [h.2.2.1 1 (by decide)]
    decide
